import Mathlib

/-!
Verification development for the installation-source resolver (url.c).

C strings are embedded as `List Char`; a C `char *` that may be NULL is an
`Option (List Char)`.  Filesystem and OS interaction points are passed in as
explicit oracle functions.  All definitions follow the control flow of the
C source; the few helpers whose source file is not part of the sources
(file.c / util.c tables) are modelled from the specification and marked so.
-/

namespace LinuxrcUrl

/-- Convenience: character list of a string literal. -/
def cs (s : String) : List Char := s.toList

/-- C `strchr`: split a char list at the first occurrence of `c`, returning
the parts before and after it (the separator is dropped), or nothing when
`c` does not occur. -/
def splitFirst (c : Char) : List Char → Option (List Char × List Char)
  | [] => Option.none
  | a :: rest =>
    if a = c then some ([], rest)
    else
      match splitFirst c rest with
      | some (x, y) => some (a :: x, y)
      | Option.none => Option.none

theorem splitFirst_some_len {c : Char} {l a b : List Char}
    (h : splitFirst c l = some (a, b)) : b.length < l.length := by
  induction l generalizing a b with
  | nil => simp [splitFirst] at h
  | cons x rest ih =>
    by_cases hx : x = c
    · simp [splitFirst, hx] at h
      simp [← h.2]
    · simp only [splitFirst, if_neg hx] at h
      cases hr : splitFirst c rest with
      | none => rw [hr] at h; simp at h
      | some p =>
        rw [hr] at h
        cases p with
        | mk x2 y2 =>
          simp at h
          have := ih (a := x2) (b := y2) hr
          simp [← h.2]
          omega

/-- C `isspace` in the default locale. -/
def isSpaceC (c : Char) : Bool := c = ' ' ∨ (9 ≤ c.toNat ∧ c.toNat ≤ 13)

/-- Decimal digit test. -/
def isDigitC (c : Char) : Bool := '0' ≤ c ∧ c ≤ '9'

/-- Value of one hex digit, if it is one. -/
def hexVal (c : Char) : Option Nat :=
  if '0' ≤ c ∧ c ≤ '9' then some (c.toNat - 48)
  else if 'a' ≤ c ∧ c ≤ 'f' then some (c.toNat - 87)
  else if 'A' ≤ c ∧ c ≤ 'F' then some (c.toNat - 55)
  else Option.none

/-- curl_easy_unescape: decode every `%XY` hex escape, leave the rest. -/
def curlUnescape : List Char → List Char
  | [] => []
  | '%' :: a :: b :: r2 =>
    match hexVal a, hexVal b with
    | some x, some y => Char.ofNat (16 * x + y) :: curlUnescape r2
    | _, _ => '%' :: curlUnescape (a :: b :: r2)
  | '%' :: a :: [] => '%' :: curlUnescape (a :: [])
  | c :: rest => c :: curlUnescape rest

/-- Upper-case hex digit of a value below 16. -/
def hexUp (n : Nat) : Char := if n < 10 then Char.ofNat (48 + n) else Char.ofNat (55 + n)

/-- Characters curl_easy_escape passes through unescaped. -/
def isUnreserved (c : Char) : Bool :=
  ('a' ≤ c ∧ c ≤ 'z') ∨ ('A' ≤ c ∧ c ≤ 'Z') ∨ ('0' ≤ c ∧ c ≤ '9') ∨
  (c = '-' ∨ c = '.' ∨ c = '_' ∨ c = '~')

/-- curl_easy_escape: percent-encode every byte that is not unreserved. -/
def curlEscape : List Char → List Char
  | [] => []
  | c :: rest =>
    if isUnreserved c then c :: curlEscape rest
    else '%' :: hexUp (c.toNat / 16 % 16) :: hexUp (c.toNat % 16) :: curlEscape rest

/-- Digit accumulation step of `strtoul`: consume digits of `base`,
returning the value and the unconsumed rest, plus how many digits were
eaten. -/
def stDigits (base : Nat) (acc : Nat) (seen : Nat) :
    List Char → Nat × Nat × List Char
  | [] => (acc, seen, [])
  | c :: rest =>
    match hexVal c with
    | some v => if v < base then stDigits base (acc * base + v) (seen + 1) rest
                else (acc, seen, c :: rest)
    | Option.none => (acc, seen, c :: rest)

/-- C `strtoul(s, &end, 0)` (base auto-detection, glibc behaviour):
returns the converted unsigned-long value and the end pointer's rest.
On no conversion the rest is the whole input; on overflow the value is
`ULONG_MAX`. -/
def strtoul0 (l : List Char) : Nat × List Char :=
  let l1 := l.dropWhile (fun c => isSpaceC c)
  let neg := l1.head? = some '-'
  let l2 := if l1.head? = some '-' ∨ l1.head? = some '+' then l1.tail else l1
  let pr :=
    if l2.head? = some '0' ∧ l2.tail ≠ [] then
      if (l2.tail.head? = some 'x' ∨ l2.tail.head? = some 'X') ∧
          (hexVal (l2.tail.tail.headD '0')).isSome ∧
          ((hexVal (l2.tail.tail.headD '0')).getD 16) < 16 then
        stDigits 16 0 0 l2.tail.tail
      else
        stDigits 8 0 1 l2.tail
    else if l2 = ['0'] then (0, 1, [])
    else stDigits 10 0 0 l2
  if pr.2.1 = 0 then (0, l)
  else
    let v := if pr.1 ≥ 2 ^ 64 then 2 ^ 64 - 1
             else if neg then (2 ^ 64 - pr.1) % 2 ^ 64 else pr.1
    (v, pr.2.2)

/-- Division loop of decimal rendering; the fuel bounds the digit count. -/
def natDecF : Nat → Nat → List Char
  | 0, _ => []
  | fuel + 1, n =>
    if n < 10 then [Char.ofNat (48 + n)]
    else natDecF fuel (n / 10) ++ [Char.ofNat (48 + n % 10)]

/-- Decimal rendering used by `printf("%u")`. -/
def natDec (n : Nat) : List Char := natDecF (n + 1) n

/-- The instmode enumeration of the installer (`inst_none` is 0, so it is
the unique scheme the C code treats as false). -/
inductive Scheme where
  | none | file | disk | cdrom | dvd | floppy | hd | smb | nfs
  | http | ftp | tftp | slp | rel | exec
deriving DecidableEq, Repr

/-- Modelled from the spec: the scheme-name table (`get_instmode_name` in
file.c, which is not among the sources); the names are the fixed scheme
enumeration given in the spec glossary. -/
def schemeName : Scheme → List Char
  | Scheme.none => cs "none"
  | Scheme.file => cs "file"
  | Scheme.disk => cs "disk"
  | Scheme.cdrom => cs "cdrom"
  | Scheme.dvd => cs "dvd"
  | Scheme.floppy => cs "floppy"
  | Scheme.hd => cs "hd"
  | Scheme.smb => cs "smb"
  | Scheme.nfs => cs "nfs"
  | Scheme.http => cs "http"
  | Scheme.ftp => cs "ftp"
  | Scheme.tftp => cs "tftp"
  | Scheme.slp => cs "slp"
  | Scheme.rel => cs "rel"
  | Scheme.exec => cs "exec"

/-- Modelled from the spec: `file_sym2num` of file.c (not among the
sources) resolves a scheme name to its enumeration value and reports
failure (-1, here `Option.none`) for any other string. -/
def fileSym2num (l : List Char) : Option Scheme :=
  if l = cs "file" then some Scheme.file
  else if l = cs "disk" then some Scheme.disk
  else if l = cs "cdrom" then some Scheme.cdrom
  else if l = cs "dvd" then some Scheme.dvd
  else if l = cs "floppy" then some Scheme.floppy
  else if l = cs "hd" then some Scheme.hd
  else if l = cs "smb" then some Scheme.smb
  else if l = cs "nfs" then some Scheme.nfs
  else if l = cs "http" then some Scheme.http
  else if l = cs "ftp" then some Scheme.ftp
  else if l = cs "tftp" then some Scheme.tftp
  else if l = cs "slp" then some Scheme.slp
  else if l = cs "rel" then some Scheme.rel
  else if l = cs "exec" then some Scheme.exec
  else Option.none

/-- Modelled from the spec: `short_dev` of util.c (not among the sources)
drops a literal "/dev/" from the front of a device path. -/
def shortDev (l : List Char) : List Char :=
  if l.take 5 = cs "/dev/" then l.drop 5 else l

/-- Modelled from the spec: `long_dev` of util.c (not among the sources)
prepends "/dev/" to a bare device name. -/
def longDev (l : List Char) : List Char :=
  if l.take 5 = cs "/dev/" then l else cs "/dev/" ++ l

/-- One query entry: key and optional value (`slist_t`). -/
structure QEntry where
  key : List Char
  value : Option (List Char)
deriving DecidableEq, Repr

/-- Modelled from the spec: `slist_split` of util.c (not among the
sources) splits a string at every separator character, keeping order. -/
def splitAll (c : Char) : List Char → List (List Char)
  | [] => [[]]
  | a :: rest =>
    if a = c then [] :: splitAll c rest
    else
      match splitAll c rest with
      | x :: xs => (a :: x) :: xs
      | [] => [[a]]

/-- Query parsing of url_set: split at '&', then each item at its first
'='; an item without '=' keeps a NULL value. -/
def parseQuery (l : List Char) : List QEntry :=
  (splitAll '&' l).map fun item =>
    match splitFirst '=' item with
    | some (k, v) => { key := k, value := some v }
    | Option.none => { key := item, value := Option.none }

/-- Modelled from the spec: `slist_getentry` finds the first entry with
the given key. -/
def slistGetentry (q : List QEntry) (k : List Char) : Option QEntry :=
  q.find? fun e => e.key = k

/-- What a `stat` probe can report about a path: block device, directory,
or anything else. -/
inductive FKind where
  | blk | dir | other
deriving DecidableEq, Repr

/-- A filesystem probe oracle: `Option.none` means stat fails. -/
abbrev StatFn := List Char → Option FKind

/-- The trivial probe environment: no path exists. -/
def statNone : StatFn := fun _ => Option.none

/-- The url_t record (struct url_s of url.h).  The `used` sub-record is
flattened into usedDevice/usedHwaddr/usedModel/usedUniqueId. -/
structure Url where
  scheme : Scheme
  server : Option (List Char)
  port : Nat
  share : Option (List Char)
  path : Option (List Char)
  user : Option (List Char)
  password : Option (List Char)
  domain : Option (List Char)
  device : Option (List Char)
  instsys : Option (List Char)
  query : List QEntry
  isMountable : Bool
  isNetwork : Bool
  isCdrom : Bool
  isWlan : Bool
  isFile : Bool
  download : Bool
  mount : Option (List Char)
  tmpMount : Option (List Char)
  usedDevice : Option (List Char)
  usedHwaddr : Option (List Char)
  usedModel : Option (List Char)
  usedUniqueId : Option (List Char)
deriving DecidableEq, Repr

/-- The calloc'd url_t: everything zero / NULL. -/
def emptyUrl : Url where
  scheme := Scheme.none
  server := Option.none
  port := 0
  share := Option.none
  path := Option.none
  user := Option.none
  password := Option.none
  domain := Option.none
  device := Option.none
  instsys := Option.none
  query := []
  isMountable := false
  isNetwork := false
  isCdrom := false
  isWlan := false
  isFile := false
  download := false
  mount := Option.none
  tmpMount := Option.none
  usedDevice := Option.none
  usedHwaddr := Option.none
  usedModel := Option.none
  usedUniqueId := Option.none

/-- url_set stage 1 (url.c:361-404): split `scheme:rest`, extract the
authority block after "//", split off the query string, and take the raw
path (one leading '/' removed).  Returns the partial url and the authority
text (`tmp` in the C code). -/
def urlSplit (s : List Char) : Url × Option (List Char) :=
  match splitFirst ':' s with
  | some (pre, rest) =>
    match fileSym2num pre with
    | some sch =>
      let auth :=
        if rest.take 2 = cs "//" then
          let body := rest.drop 2
          let i := (body.takeWhile fun c => ¬(c = '/' ∨ c = '?')).length
          (if i ≠ 0 then some (body.take i) else Option.none, body.drop i)
        else (Option.none, rest)
      let pq :=
        match splitFirst '?' auth.2 with
        | some (a, b) => (a, parseQuery b)
        | Option.none => (auth.2, [])
      let path := if pq.1.head? = some '/' then pq.1.drop 1 else pq.1
      ({ emptyUrl with scheme := sch, query := pq.2, path := some path }, auth.1)
    | Option.none => ({ emptyUrl with scheme := Scheme.none }, Option.none)
  | Option.none =>
    match fileSym2num s with
    | some sch => ({ emptyUrl with scheme := sch, path := some [] }, Option.none)
    | Option.none => ({ emptyUrl with scheme := Scheme.rel, path := some s }, Option.none)

/-- url_set stage 2 (url.c:408-439): parse the authority block
`domain;user:password@server:port`.  The server is recorded even when
empty; the port only when its text is non-empty and fully numeric. -/
def parseAuth (tmp : List Char) (u : Url) : Url :=
  let d :=
    match splitFirst ';' tmp with
    | some (a, b) => (some a, b)
    | Option.none => (Option.none, tmp)
  let up :=
    match splitFirst '@' d.2 with
    | some (a, b) =>
      match splitFirst ':' a with
      | some (x, y) => (some x, some y, b)
      | Option.none => (some a, Option.none, b)
    | Option.none => (Option.none, Option.none, d.2)
  let sp :=
    match splitFirst ':' up.2.2 with
    | some (a, b) =>
      if b ≠ [] then
        let r := strtoul0 b
        (a, if r.2 = [] then r.1 % 2 ^ 32 else 0)
      else (a, 0)
    | Option.none => (up.2.2, 0)
  { u with domain := d.1, user := up.1, password := up.2.1,
           server := some sp.1, port := sp.2 }

/-- url_set stage 3 (url.c:442-450): for smb the first path element is the
share. -/
def smbSplit (u : Url) : Url :=
  if u.scheme = Scheme.smb then
    match u.path with
    | some p =>
      match splitFirst '/' p with
      | some (a, b) => { u with share := some a, path := some b }
      | Option.none => { u with share := some p, path := Option.none }
    | Option.none => u
  else u

/-- url_set stage 4 (url.c:453-466): unescape server, share, path, user,
password and domain. -/
def unescapeFields (u : Url) : Url :=
  { u with server := u.server.map curlUnescape,
           share := u.share.map curlUnescape,
           path := u.path.map curlUnescape,
           user := u.user.map curlUnescape,
           password := u.password.map curlUnescape,
           domain := u.domain.map curlUnescape }

/-- The disk-family schemes whose path may begin with a device name. -/
def diskFamily (s : Scheme) : Bool :=
  s = Scheme.disk ∨ s = Scheme.cdrom ∨ s = Scheme.dvd ∨
  s = Scheme.floppy ∨ s = Scheme.hd

theorem takeWhile_len_le (p : Char → Bool) (l : List Char) :
    (l.takeWhile p).length ≤ l.length := by
  induction l with
  | nil => simp
  | cons a rest ih =>
    by_cases hp : p a
    · simp [List.takeWhile, hp]
      omega
    · simp [List.takeWhile, hp]

/-- The prefix-probing loop of url.c:490-502.  `pre ++ '/' :: rest` is the
remaining probe string; each step stats the prefix up to the next '/'.
A block device ends the walk with the device prefix and the in-device
rest; a directory continues; anything else (or a failing stat) stops with
no device found. -/
def probeGoF (stat : StatFn) : Nat → List Char → List Char →
    Option (List Char × Option (List Char))
  | 0, _, _ => Option.none
  | fuel + 1, pre, rest =>
    let seg := rest.takeWhile fun c => c ≠ '/'
    if seg.length = rest.length then
      let p := pre ++ '/' :: rest
      match stat p with
      | some FKind.blk => some (p, Option.none)
      | _ => Option.none
    else
      let after := rest.drop (seg.length + 1)
      let p := pre ++ '/' :: seg
      match stat p with
      | some FKind.blk => some (p, some after)
      | some FKind.dir => probeGoF stat fuel p after
      | _ => Option.none

/-- Entry point of the probe loop; the fuel strictly exceeds the number
of path separators, so it never runs out. -/
def probeGo (stat : StatFn) (pre rest : List Char) :
    Option (List Char × Option (List Char)) :=
  probeGoF stat (rest.length + 1) pre rest

/-- url_set stage 5 (url.c:469-506): for disk-family schemes, split a
leading block-device name out of the path, prefixing "/dev/" when the
path does not already start with the dev directory. -/
def devProbe (stat : StatFn) (u : Url) : Url :=
  if diskFamily u.scheme then
    match u.path with
    | some p =>
      let body :=
        (if p.take 3 = cs "dev" ∧ (p.drop 3 = [] ∨ (p.drop 3).head? = some '/')
         then [] else cs "dev/") ++ p
      match probeGo stat [] body with
      | some (pfx, rest) => { u with device := some (shortDev pfx), path := rest }
      | Option.none => u
    | Option.none => u
  else u

/-- url_set stage 6 (url.c:508-511): a `device=` query entry overrides the
device hint (empty value clears it). -/
def queryDevice (u : Url) : Url :=
  match slistGetentry u.query (cs "device") with
  | some e =>
    match e.value with
    | some v =>
      let s0 := shortDev v
      { u with device := if s0 = [] then Option.none else some s0 }
    | Option.none => u
  | Option.none => u

/-- url_set stage 7 (url.c:513-515): an `instsys=` query entry is copied. -/
def queryInstsys (u : Url) : Url :=
  match slistGetentry u.query (cs "instsys") with
  | some e => { u with instsys := e.value }
  | Option.none => u

/-- The mountable schemes (url.c:517-529). -/
def mountableSchemes : List Scheme :=
  [Scheme.file, Scheme.nfs, Scheme.smb, Scheme.cdrom, Scheme.floppy,
   Scheme.hd, Scheme.disk, Scheme.dvd, Scheme.exec]

/-- The network schemes (url.c:531-540). -/
def networkSchemes : List Scheme :=
  [Scheme.slp, Scheme.nfs, Scheme.ftp, Scheme.smb, Scheme.http, Scheme.tftp]

/-- url_set stage 8 (url.c:517-547): derive the capability flags. -/
def setFlags (u : Url) : Url :=
  { u with isMountable := u.scheme ∈ mountableSchemes,
           isNetwork := u.scheme ∈ networkSchemes,
           isCdrom := u.scheme = Scheme.cdrom ∨ u.scheme = Scheme.dvd }

/-- url_set stage 9 (url.c:549-559): a mountable url always gets a path
with a leading '/'. -/
def forceSlash (u : Url) : Url :=
  if u.isMountable then
    match u.path with
    | some p => if p.head? = some '/' then u else { u with path := some ('/' :: p) }
    | Option.none => { u with path := some ['/'] }
  else u

/-- url_set (url.c:346-599): parse a url string.  `stat` is the
filesystem-probe oracle used for disk-family device splitting.  A NULL
argument yields the calloc'd record. -/
def urlSet (stat : StatFn) (str : Option (List Char)) : Url :=
  match str with
  | Option.none => emptyUrl
  | some s =>
    let s1 := urlSplit s
    let u1 := match s1.2 with
      | some t => parseAuth t s1.1
      | Option.none => s1.1
    forceSlash (setFlags (queryInstsys (queryDevice
      (devProbe stat (unescapeFields (smbSplit u1))))))

/-- The authority text `domain;user:password@server:port` as url_print
emits it (url.c:620-636): domain terminated by ';', user and password
curl-escaped and separated by ':', an '@' whenever either credential is
present, the server raw, and a nonzero port preceded by ':'. -/
def authText (dom usr pw : Option (List Char)) (v : List Char) (port : Nat) : List Char :=
  (match dom with | some d => d ++ [';'] | Option.none => []) ++
  (match usr with | some x => curlEscape x | Option.none => []) ++
  (match pw with | some x => ':' :: curlEscape x | Option.none => []) ++
  (if usr.isSome ∨ pw.isSome then ['@'] else []) ++
  v ++ (if port ≠ 0 then ':' :: natDec port else [])

/-- The scheme-and-authority prefix of url_print (url.c:618-636): the
`//`-authority block appears whenever any of domain, user, password,
server or port is set. -/
def printAuth (u : Url) : List Char :=
  let b0 := schemeName u.scheme ++ [':']
  if u.domain.isSome ∨ u.user.isSome ∨ u.password.isSome ∨
      u.server.isSome ∨ u.port ≠ 0 then
    b0 ++ '/' :: '/' ::
      authText u.domain u.user u.password (u.server.getD []) u.port
  else b0

/-- The share component of url_print (url.c:638): `/share` when set. -/
def shareText (u : Url) : List Char :=
  match u.share with | some x => '/' :: x | Option.none => []

/-- The path component of url_print (url.c:640-652): a single leading
'/', the ftp `%2F` marker when the path itself starts with '/', the
path with one leading '/' dropped; slp with an empty path prints
nothing. -/
def pathText (u : Url) : List Char :=
  match u.path with
  | some p =>
    if u.scheme ≠ Scheme.slp ∨ p ≠ [] then
      '/' :: ((if u.scheme = Scheme.ftp ∧ p.head? = some '/' then cs "%2F" else []) ++
              (if p.head? = some '/' then p.drop 1 else p))
    else []
  | Option.none => []

/-- The device-hint query suffix of url_print (url.c:654-658): the
resolved device, else the hint, as `?device=<short name>`. -/
def devText (u : Url) : List Char :=
  match (match u.usedDevice with | some d => some d | Option.none => u.device) with
  | some d => '?' :: (cs "device=" ++ shortDev d)
  | Option.none => []

/-- url_print (url.c:612-662), assembled from its four component texts.
Format 0 is for logging, 1 omits the device query, 2 appends it; the
debug-only hwaddr suffix of format 0 is omitted (config.debug is 0
here). -/
def urlPrint (u : Url) (format : Nat) : List Char :=
  printAuth u ++ shareText u ++ pathText u ++
  (if format = 0 ∨ format = 2 then devText u else [])

theorem forceSlash_scheme (u : Url) : (forceSlash u).scheme = u.scheme := by
  obtain ⟨sch, srv, prt, shr, pth, usr, pw, dom, dev, ins, q, m, n, cd, w, f, dl,
    mnt, tmp, ud, uh, um, ui⟩ := u
  cases pth with
  | none => by_cases hm : m = true <;> simp [forceSlash, hm]
  | some p =>
    by_cases hm : m = true <;> by_cases hc : p.head? = some '/' <;>
      simp [forceSlash, hm, hc]

theorem forceSlash_mountable_path (u : Url) (hm : u.isMountable = true) :
    ∃ p, (forceSlash u).path = some ('/' :: p) := by
  obtain ⟨sch, srv, prt, shr, pth, usr, pw, dom, dev, ins, q, m, n, cd, w, f, dl,
    mnt, tmp, ud, uh, um, ui⟩ := u
  simp only at hm
  cases pth with
  | none => exact ⟨[], by simp [forceSlash, hm]⟩
  | some p =>
    cases p with
    | nil => exact ⟨[], by simp [forceSlash, hm]⟩
    | cons c t =>
      by_cases hc : c = '/'
      · exact ⟨t, by simp [forceSlash, hm, hc]⟩
      · exact ⟨c :: t, by simp [forceSlash, hm, hc]⟩

theorem setFlags_mountable (u : Url) :
    (setFlags u).isMountable = (u.scheme ∈ mountableSchemes : Bool) := rfl

theorem forceSlash_setFlags_path (v : Url)
    (h : (forceSlash (setFlags v)).scheme ∈ mountableSchemes) :
    ∃ p, (forceSlash (setFlags v)).path = some ('/' :: p) := by
  rw [forceSlash_scheme] at h
  refine forceSlash_mountable_path _ ?_
  rw [setFlags_mountable]
  exact decide_eq_true h

/-- Claim C3: parsing any input whose scheme comes out as one of the
mountable schemes (file, nfs, smb, cdrom, dvd, floppy, hd, disk, exec)
yields a url whose path is non-NULL and starts with '/', whatever the
filesystem probe answered and whether or not the input's path component
had a leading '/' or existed at all. -/
theorem c3_mountable_leading_slash (stat : StatFn) (s : Option (List Char))
    (h : (urlSet stat s).scheme ∈ mountableSchemes) :
    ∃ p, (urlSet stat s).path = some ('/' :: p) := by
  cases s with
  | none =>
    simp [urlSet, emptyUrl, mountableSchemes] at h
  | some s => exact forceSlash_setFlags_path _ h

/-- Witness for C3 at a device-style input with no leading slash. -/
theorem c3_mountable_leading_slash_witness :
    (urlSet statNone (some (cs "cdrom:repo"))).scheme ∈ mountableSchemes ∧
    (urlSet statNone (some (cs "cdrom:repo"))).path = some ('/' :: cs "repo") := by
  refine ⟨by decide, ?_⟩
  obtain ⟨p, hp⟩ := c3_mountable_leading_slash statNone (some (cs "cdrom:repo")) (by decide)
  have : p = cs "repo" := by
    have h2 : (urlSet statNone (some (cs "cdrom:repo"))).path = some (cs "/repo") := by decide
    rw [h2] at hp
    exact (by simpa [cs] using hp.symm)
  rw [← this]
  exact hp

/-- Claim C2, counterexample: the empty string does not produce a url with
scheme `none`; url_set's colon-free branch falls back to the `rel`
scheme (url.c:394-404). -/
theorem c2_empty_scheme_counterexample :
    (urlSet statNone (some [])).scheme = Scheme.rel ∧ Scheme.rel ≠ Scheme.none := by
  decide

/-- Does url_set find no recognized scheme in the input: either the part
before the first ':' is no scheme name, or there is no ':' and the whole
input is no scheme name. -/
def noKnownScheme (s : List Char) : Bool :=
  match splitFirst ':' s with
  | some (pre, _) => fileSym2num pre = Option.none
  | Option.none => fileSym2num s = Option.none

/-- Claim C2 as amended: url_set never fails hard -- it totally produces a
url record; a string containing ':' whose scheme part is not a recognized
scheme name yields scheme = none, while a string without ':' that is not a
bare scheme name (the empty string included) yields scheme = rel. -/
theorem c2_soft_failure (stat : StatFn) (s : List Char)
    (hn : noKnownScheme s = true) :
    (urlSet stat (some s)).scheme =
      (if (splitFirst ':' s).isSome then Scheme.none else Scheme.rel) := by
  unfold noKnownScheme at hn
  have hpath : urlSet stat (some s) =
      forceSlash (setFlags (queryInstsys (queryDevice (devProbe stat
        (unescapeFields (smbSplit (match (urlSplit s).2 with
          | some t => parseAuth t (urlSplit s).1
          | Option.none => (urlSplit s).1))))))) := rfl
  cases hsp : splitFirst ':' s with
  | some pp =>
    obtain ⟨pre, rest⟩ := pp
    rw [hsp] at hn
    simp at hn
    have hu : urlSplit s = ({ emptyUrl with scheme := Scheme.none }, Option.none) := by
      simp [urlSplit, hsp, hn]
    rw [hpath, hu]
    simp [forceSlash_scheme, hsp]
    rfl
  | none =>
    rw [hsp] at hn
    simp at hn
    have hu : urlSplit s =
        ({ emptyUrl with scheme := Scheme.rel, path := some s }, Option.none) := by
      simp [urlSplit, hsp, hn]
    rw [hpath, hu]
    simp [forceSlash_scheme, hsp]
    rfl

/-- Witness for C2 as amended, at an unrecognized scheme with a colon. -/
theorem c2_soft_failure_witness :
    noKnownScheme (cs "foo:bar") = true ∧
    (urlSet statNone (some (cs "foo:bar"))).scheme =
      (if (splitFirst ':' (cs "foo:bar")).isSome then Scheme.none else Scheme.rel) := by
  exact ⟨by decide, c2_soft_failure statNone (cs "foo:bar") (by decide)⟩

/-- C `isspace` on a byte value. -/
def isSpaceB (b : Nat) : Bool := b = 32 ∨ (9 ≤ b ∧ b ≤ 13)

/-- Decimal digit test on a byte value. -/
def isDigitB (b : Nat) : Bool := 48 ≤ b ∧ b ≤ 57

/-- Integer parsing of `sscanf("%d")`: optional sign, then at least one
digit. -/
def scanInt (l : List Nat) : Option Int :=
  let l1 := l.dropWhile fun b => isSpaceB b
  let sp :=
    match l1 with
    | 45 :: r => (true, r)
    | 43 :: r => (false, r)
    | r => (false, r)
  let ds : List Nat := sp.2.takeWhile fun b => isDigitB b
  if ds = [] then Option.none
  else
    let v : Int := ds.foldl (fun a b => a * 10 + (Int.ofNat b - 48)) 0
    some (if sp.1 then -v else v)

/-- The `sscanf(orig_name, "%*s %d", &i)` pattern of url.c:244: skip one
non-empty whitespace-delimited word, then read an integer. -/
def scanWordInt (l : List Nat) : Option Int :=
  let l1 := l.dropWhile fun b => isSpaceB b
  if l1.takeWhile (fun b => ¬isSpaceB b) = [] then Option.none
  else scanInt (l1.dropWhile fun b => ¬isSpaceB b)

/-- The transfer state (url_data_t), restricted to the fields
url_write_cb manipulates; byte contents of the destination file are not
tracked, only the counters. -/
structure UD where
  bufData : List Nat
  bufMax : Nat
  flush : Bool
  unzip : Bool
  gzip : Bool
  cramfs : Bool
  origName : Option (List Nat)
  imageSize : Nat
  fileOpened : Bool
  fOpen : Bool
  pipeFd : Bool
  tmpFileSet : Bool
  pNow : Nat
  pTotal : Nat
  zpNow : Nat
  zpTotal : Nat
  err : Nat
deriving DecidableEq, Repr

/-- The freshly allocated transfer state (url_data_new, url.c:694-717):
a 256 byte sniff buffer, no pipe, nothing read. -/
def initUD (unzip : Bool) : UD where
  bufData := []
  bufMax := 256
  flush := false
  unzip := unzip
  gzip := false
  cramfs := false
  origName := Option.none
  imageSize := 0
  fileOpened := false
  fOpen := false
  pipeFd := false
  tmpFileSet := false
  pNow := 0
  pTotal := 0
  zpNow := 0
  zpTotal := 0
  err := 0

/-- Oracle for the OS calls of one transfer: mkstemp/open/popen/fopen
success, the lseek position of the decompressor output, and whether the
progress callback asks to abort. -/
structure WEnv where
  mkstempOk : Bool
  openOk : Bool
  popenOk : Bool
  fopenOk : Bool
  lseekVal : Option Nat
  progressAborts : Bool

/-- An environment where every OS call succeeds. -/
def envAllOk : WEnv where
  mkstempOk := true
  openOk := true
  popenOk := true
  fopenOk := true
  lseekVal := Option.none
  progressAborts := false

/-- CRAMFS_SUPER_MAGIC / CRAMFS_SUPER_MAGIC_BIG (url.c:37-38). -/
def cramfsMagic : Nat := 0x28cd3d45
def cramfsMagicBig : Nat := 0x453dcd28

/-- The `magic` field of a cramfs superblock read from the buffer start
(little-endian host, as on the installer's x86 target). -/
def le32 (l : List Nat) : Nat :=
  l.getD 0 0 + 256 * l.getD 1 0 + 65536 * l.getD 2 0 + 16777216 * l.getD 3 0

/-- url_write_cb classification (url.c:215-239): gzip detection with
optional embedded name, else cramfs superblock detection. -/
def classifyStep (st : UD) : UD :=
  if st.unzip ∧ st.bufData.getD 0 0 = 0x1f ∧ st.bufData.getD 1 0 = 0x8b then
    let g := { st with gzip := true }
    if st.bufData.getD 3 0 &&& 0x08 ≠ 0 then
      let tl := st.bufData.drop 10
      match tl.findIdx? (fun b => b = 0) with
      | some i => { g with origName := some (tl.take i) }
      | Option.none => g
    else g
  else if st.bufData.length > 64 then
    if le32 st.bufData = cramfsMagic ∨ le32 st.bufData = cramfsMagicBig then
      { st with cramfs := true,
                origName := some (((st.bufData.drop 48).take 16).takeWhile fun b => b ≠ 0) }
    else st
  else st

/-- url_write_cb size scan (url.c:241-248): the `<word> <integer>`
uncompressed-size scan of the captured name. -/
def sizeScan (st : UD) : UD :=
  match st.origName with
  | some nm =>
    match scanWordInt nm with
    | some k => if 0 < k then { st with imageSize := k.toNat } else st
    | Option.none => st
  | Option.none => st

/-- url_write_cb sniff step (url.c:211-256), applied to the buffered
bytes when the sniff guard holds. -/
def sniffStep (st : UD) : UD := sizeScan (classifyStep st)

/-- url_write_cb destination-open step (url.c:258-295): on the first
triggering call, open the gzip pipe (through mkstemp for the stderr side
file and open of the destination) or plainly fopen the destination. -/
def openStep (env : WEnv) (st : UD) : UD :=
  if st.fileOpened then st
  else
    let st := { st with fileOpened := true }
    if st.gzip then
      let st := { st with tmpFileSet := true }
      if env.mkstempOk then
        if env.openOk then
          { st with pipeFd := true, fOpen := env.popenOk,
                    zpTotal := st.imageSize <<< 10 }
        else { st with err := 101 }
      else { st with err := 1 }
    else
      if env.fopenOk then { st with fOpen := true }
      else { st with err := 101 }

/-- url_write_cb buffering step (url.c:202-209): fill the sniff buffer
up to its capacity, returning the state and the overflow byte count
(`z1` after consumption). -/
def bufferStep (st : UD) (chunk : List Nat) : UD × Nat :=
  if st.bufData.length < st.bufMax ∧ chunk.length ≠ 0 then
    let z2 := min (st.bufMax - st.bufData.length) chunk.length
    ({ st with bufData := st.bufData ++ chunk.take z2 }, chunk.length - z2)
  else (st, chunk.length)

/-- url_write_cb sniff guard (url.c:211-214): the buffer filled or the
stream ended, and at least 11 bytes are buffered. -/
def sniffGate (st : UD) : UD :=
  if (st.bufData.length = st.bufMax ∨ st.flush) ∧ 11 ≤ st.bufData.length then
    sniffStep st
  else st

/-- url_write_cb open-and-write block (url.c:258-312): on the same
trigger (without the 11 byte floor), open the destination once, write
the buffered bytes and the overflow, and release the sniff buffer. -/
def openGate (env : WEnv) (st : UD) (rest : Nat) : UD :=
  if st.bufData.length = st.bufMax ∨ st.flush then
    let o := openStep env st
    let o := if o.fOpen ∧ o.bufData.length ≠ 0 then
        { o with pNow := o.pNow + o.bufData.length } else o
    let o := if o.fOpen ∧ rest ≠ 0 then { o with pNow := o.pNow + rest } else o
    if o.bufMax ≠ 0 then { o with bufData := [], bufMax := 0 } else o
  else st

/-- url_write_cb tail (url.c:314-325): track the decompressor output
position, then report progress, which may abort the transfer (code
102). -/
def tailGate (env : WEnv) (st : UD) : UD :=
  let st4 := if st.pipeFd then { st with zpNow := env.lseekVal.getD st.zpNow } else st
  if st4.pTotal ≠ 0 ∨ st4.zpTotal ≠ 0 then
    if env.progressAborts ∧ st4.err = 0 then { st4 with err := 102 } else st4
  else st4

/-- url_write_cb (url.c:183-326) as one state transition on a chunk of
bytes.  The sha1 fold is not tracked. -/
def writeCb (env : WEnv) (st : UD) (chunk : List Nat) : UD :=
  let b := bufferStep st chunk
  tailGate env (openGate env (sniffGate b.1) b.2)

/-- One whole transfer as url_read drives it (url.c:109-153): the chunk
sequence, then the flush call at stream end, then the final flush-reset
call used to pin the progress display. -/
def runTransfer (env : WEnv) (unzip : Bool) (chunks : List (List Nat)) : UD :=
  let st1 := chunks.foldl (writeCb env) (initUD unzip)
  let st2 := if st1.err = 0 then writeCb env { st1 with flush := true } [] else st1
  writeCb env { st2 with flush := false } []

/-- Gzip classification condition on the final sniff buffer, as coded:
at least 11 bytes buffered, unzip requested, and the two gzip magic
bytes. -/
def gzipCond (unzip : Bool) (bs : List Nat) : Bool :=
  11 ≤ bs.length ∧ unzip ∧ bs.getD 0 0 = 0x1f ∧ bs.getD 1 0 = 0x8b

/-- Cramfs classification condition on the final sniff buffer, as coded:
the sniff ran (11 bytes), the gzip arm did not fire, more bytes than a
cramfs superblock, and the magic in either byte order. -/
def cramfsCond (unzip : Bool) (bs : List Nat) : Bool :=
  11 ≤ bs.length ∧ ¬(unzip ∧ bs.getD 0 0 = 0x1f ∧ bs.getD 1 0 = 0x8b) ∧
  64 < bs.length ∧ (le32 bs = cramfsMagic ∨ le32 bs = cramfsMagicBig)

/-- The name url_write_cb captures from the final sniff buffer: the
NUL-terminated gzip original name at offset 10 (only if the FNAME flag
bit is set and the terminator lies inside the buffer), or the 16-byte
cramfs volume name at offset 48. -/
def sniffName (unzip : Bool) (bs : List Nat) : Option (List Nat) :=
  if gzipCond unzip bs then
    if bs.getD 3 0 &&& 0x08 ≠ 0 then
      match (bs.drop 10).findIdx? (fun b => b = 0) with
      | some i => some ((bs.drop 10).take i)
      | Option.none => Option.none
    else Option.none
  else if cramfsCond unzip bs then
    some (((bs.drop 48).take 16).takeWhile fun b => b ≠ 0)
  else Option.none

/-- The kilobyte count a captured name yields through the
`<word> <integer>` scan (0 when absent or non-positive). -/
def nameSizeKb (n : Option (List Nat)) : Nat :=
  match n with
  | some nm =>
    match scanWordInt nm with
    | some k => if 0 < k then k.toNat else 0
    | Option.none => 0
  | Option.none => 0

/-- The inferred uncompressed size in kB: the positive integer of a
captured `<word> <integer>` name, else 0. -/
def sniffSize (unzip : Bool) (bs : List Nat) : Nat :=
  nameSizeKb (sniffName unzip bs)

/-- The decompressed-total denominator after the destination was opened:
set only on the successful gzip-open path. -/
def zpTotalOf (env : WEnv) (unzip : Bool) (bs : List Nat) : Nat :=
  if gzipCond unzip bs ∧ env.mkstempOk ∧ env.openOk then sniffSize unzip bs <<< 10
  else 0

/-- State description before the sniff event: the buffer holds exactly
the bytes seen so far, nothing is classified, nothing is open. -/
def freshState (unzip : Bool) (A : List Nat) (st : UD) : Prop :=
  st.bufData = A ∧ st.bufMax = 256 ∧ st.flush = false ∧ st.unzip = unzip ∧
  st.gzip = false ∧ st.cramfs = false ∧ st.origName = Option.none ∧
  st.imageSize = 0 ∧ st.fileOpened = false ∧ st.zpTotal = 0 ∧
  st.pTotal = 0 ∧ st.err = 0

/-- State description after the sniff event on sniff buffer `bs`: buffer
released, destination opened, classification and size fields fixed. -/
def sniffedState (env : WEnv) (unzip : Bool) (bs : List Nat) (st : UD) : Prop :=
  st.bufData = [] ∧ st.bufMax = 0 ∧ st.fileOpened = true ∧ st.unzip = unzip ∧
  st.gzip = gzipCond unzip bs ∧ st.cramfs = cramfsCond unzip bs ∧
  st.origName = sniffName unzip bs ∧ st.imageSize = sniffSize unzip bs ∧
  st.zpTotal = zpTotalOf env unzip bs

theorem sniffedState_flush (env : WEnv) (unzip : Bool) (bs : List Nat)
    (st : UD) (b : Bool) (h : sniffedState env unzip bs st) :
    sniffedState env unzip bs { st with flush := b } := h

theorem tailGate_fresh (env : WEnv) (unzip : Bool) (A : List Nat) (st : UD)
    (h : freshState unzip A st) : freshState unzip A (tailGate env st) := by
  obtain ⟨h1, h2, h3, h4, h5, h6, h7, h8, h9, h10, h11, h12⟩ := h
  simp only [tailGate]
  split_ifs <;>
    first
      | exact ⟨h1, h2, h3, h4, h5, h6, h7, h8, h9, h10, h11, h12⟩
      | simp_all [freshState]

theorem tailGate_sniffed (env : WEnv) (unzip : Bool) (bs : List Nat) (st : UD)
    (h : sniffedState env unzip bs st) : sniffedState env unzip bs (tailGate env st) := by
  simp only [tailGate]
  split_ifs <;> exact h

theorem sniffGate_skip (st : UD)
    (h1 : ¬((st.bufData.length = st.bufMax ∨ st.flush = true) ∧ 11 ≤ st.bufData.length)) :
    sniffGate st = st := by
  unfold sniffGate
  rw [if_neg h1]

theorem openGate_skip (env : WEnv) (st : UD) (rest : Nat)
    (h1 : ¬(st.bufData.length = st.bufMax ∨ st.flush = true)) :
    openGate env st rest = st := by
  unfold openGate
  rw [if_neg h1]

theorem bufferStep_small (st : UD) (chunk : List Nat) (A : List Nat)
    (hbd : st.bufData = A) (hbm : st.bufMax = 256)
    (hlen : A.length + chunk.length ≤ 256) :
    bufferStep st chunk = ({ st with bufData := A ++ chunk }, 0) := by
  unfold bufferStep
  by_cases hch : chunk.length = 0
  · have hce : chunk = [] := List.length_eq_zero.mp hch
    subst hce
    rw [if_neg (by simp)]
    have he : ({ st with bufData := A ++ [] } : UD) = st := by
      rw [List.append_nil, ← hbd]
    rw [he]
    rfl
  · have hc1 : 1 ≤ chunk.length := Nat.one_le_iff_ne_zero.mpr hch
    rw [if_pos ⟨by rw [hbd, hbm]; omega, hch⟩]
    have hmin : min (st.bufMax - st.bufData.length) chunk.length = chunk.length := by
      rw [hbd, hbm]; omega
    rw [hmin]
    dsimp only
    rw [List.take_length, hbd]
    simp

theorem bufferStep_fill (st : UD) (chunk : List Nat) (A : List Nat)
    (hbd : st.bufData = A) (hbm : st.bufMax = 256)
    (hA : A.length < 256) (hlen : 256 < A.length + chunk.length) :
    bufferStep st chunk =
      ({ st with bufData := (A ++ chunk).take 256 }, A.length + chunk.length - 256) := by
  unfold bufferStep
  rw [if_pos ⟨by rw [hbd, hbm]; omega, by omega⟩]
  have hmin : min (st.bufMax - st.bufData.length) chunk.length = 256 - A.length := by
    rw [hbd, hbm]
    omega
  rw [hmin, hbd, hbm]
  have htk : (A ++ chunk).take 256 = A ++ chunk.take (256 - A.length) := by
    rw [List.take_append_eq_append_take, List.take_of_length_le (le_of_lt hA)]
  rw [htk]
  dsimp only
  simp only [Prod.mk.injEq]
  exact ⟨trivial, by omega⟩

theorem classifyStep_chars (st : UD) (h11 : 11 ≤ st.bufData.length)
    (hg : st.gzip = false) (hc : st.cramfs = false) (ho : st.origName = Option.none) :
    classifyStep st = { st with gzip := gzipCond st.unzip st.bufData,
                                cramfs := cramfsCond st.unzip st.bufData,
                                origName := sniffName st.unzip st.bufData } := by
  obtain ⟨bd, bm, fl, uz, gz, cf, onm, isz, fo, fop, pf, tf, pn, pt, zn, zt, er⟩ := st
  simp only at h11 hg hc ho
  subst hg hc ho
  unfold classifyStep
  dsimp only
  by_cases h1 : uz = true ∧ bd.getD 0 0 = 0x1f ∧ bd.getD 1 0 = 0x8b
  · have hgz : gzipCond uz bd = true := by
      simp only [gzipCond, decide_eq_true_eq]
      exact ⟨h11, h1.1, h1.2.1, h1.2.2⟩
    have hcf : cramfsCond uz bd = false := by
      simp only [cramfsCond, decide_eq_false_iff_not]
      exact fun hx => hx.2.1 h1
    rw [if_pos h1]
    by_cases hbit : bd.getD 3 0 &&& 0x08 ≠ 0
    · rw [if_pos hbit]
      have hnm : sniffName uz bd =
          match (bd.drop 10).findIdx? (fun b => b = 0) with
          | some i => some ((bd.drop 10).take i)
          | Option.none => Option.none := by
        unfold sniffName
        rw [hgz, if_pos rfl, if_pos hbit]
      rw [hgz, hcf, hnm]
      cases hidx : (bd.drop 10).findIdx? (fun b => b = 0) <;> rfl
    · rw [if_neg hbit]
      have hnm : sniffName uz bd = Option.none := by
        unfold sniffName
        rw [hgz, if_pos rfl, if_neg hbit]
      rw [hgz, hcf, hnm]
  · have hgz : gzipCond uz bd = false := by
      simp only [gzipCond, decide_eq_false_iff_not]
      exact fun hx => h1 ⟨hx.2.1, hx.2.2.1, hx.2.2.2⟩
    rw [if_neg h1]
    by_cases h64 : bd.length > 64
    · by_cases hmg : le32 bd = cramfsMagic ∨ le32 bd = cramfsMagicBig
      · have hcf : cramfsCond uz bd = true := by
          simp only [cramfsCond, decide_eq_true_eq]
          exact ⟨h11, h1, h64, hmg⟩
        have hnm : sniffName uz bd =
            some (((bd.drop 48).take 16).takeWhile fun b => b ≠ 0) := by
          simp [sniffName, hgz, hcf]
        rw [if_pos h64, if_pos hmg, hgz, hcf, hnm]
      · have hcf : cramfsCond uz bd = false := by
          simp only [cramfsCond, decide_eq_false_iff_not]
          exact fun hx => hmg hx.2.2.2
        have hnm : sniffName uz bd = Option.none := by
          simp [sniffName, hgz, hcf]
        rw [if_pos h64, if_neg hmg, hgz, hcf, hnm]
    · have hcf : cramfsCond uz bd = false := by
        simp only [cramfsCond, decide_eq_false_iff_not]
        exact fun hx => h64 hx.2.2.1
      have hnm : sniffName uz bd = Option.none := by
        simp [sniffName, hgz, hcf]
      rw [if_neg h64, hgz, hcf, hnm]



theorem sizeScan_eq (st : UD) (hi : st.imageSize = 0) :
    sizeScan st = { st with imageSize := nameSizeKb st.origName } := by
  obtain ⟨bd, bm, fl, uz, gz, cf, onm, isz, fo, fop, pf, tf, pn, pt, zn, zt, er⟩ := st
  simp only at hi
  subst hi
  cases onm with
  | none => rfl
  | some nm =>
    cases hsc : scanWordInt nm with
    | none => simp [sizeScan, nameSizeKb, hsc]
    | some k =>
      by_cases hk : 0 < k
      · simp [sizeScan, nameSizeKb, hsc, hk]
      · simp [sizeScan, nameSizeKb, hsc, hk]

theorem sniffStep_chars (st : UD) (h11 : 11 ≤ st.bufData.length)
    (hg : st.gzip = false) (hc : st.cramfs = false)
    (ho : st.origName = Option.none) (hi : st.imageSize = 0) :
    sniffStep st = { st with gzip := gzipCond st.unzip st.bufData,
                             cramfs := cramfsCond st.unzip st.bufData,
                             origName := sniffName st.unzip st.bufData,
                             imageSize := sniffSize st.unzip st.bufData } := by
  unfold sniffStep
  rw [classifyStep_chars st h11 hg hc ho]
  have hx := sizeScan_eq
    { st with gzip := gzipCond st.unzip st.bufData,
              cramfs := cramfsCond st.unzip st.bufData,
              origName := sniffName st.unzip st.bufData } hi
  rw [hx]
  rfl

theorem openStep_props (env : WEnv) (st : UD)
    (hfo : st.fileOpened = false) (hzt : st.zpTotal = 0) :
    (openStep env st).bufData = st.bufData ∧ (openStep env st).bufMax = st.bufMax ∧
    (openStep env st).flush = st.flush ∧ (openStep env st).unzip = st.unzip ∧
    (openStep env st).gzip = st.gzip ∧ (openStep env st).cramfs = st.cramfs ∧
    (openStep env st).origName = st.origName ∧
    (openStep env st).imageSize = st.imageSize ∧
    (openStep env st).fileOpened = true ∧
    (openStep env st).zpTotal =
      (if st.gzip = true ∧ env.mkstempOk = true ∧ env.openOk = true
       then st.imageSize <<< 10 else 0) := by
  unfold openStep
  rw [if_neg (by rw [hfo]; simp)]
  by_cases hgz2 : st.gzip = true <;> split_ifs <;> simp_all

theorem openGate_event (env : WEnv) (st : UD) (rest : Nat)
    (hguard : st.bufData.length = st.bufMax ∨ st.flush = true)
    (hfo : st.fileOpened = false) (hzt : st.zpTotal = 0) (hbm : st.bufMax ≠ 0) :
    (openGate env st rest).bufData = [] ∧ (openGate env st rest).bufMax = 0 ∧
    (openGate env st rest).fileOpened = true ∧
    (openGate env st rest).unzip = st.unzip ∧
    (openGate env st rest).gzip = st.gzip ∧
    (openGate env st rest).cramfs = st.cramfs ∧
    (openGate env st rest).origName = st.origName ∧
    (openGate env st rest).imageSize = st.imageSize ∧
    (openGate env st rest).zpTotal =
      (if st.gzip = true ∧ env.mkstempOk = true ∧ env.openOk = true
       then st.imageSize <<< 10 else 0) := by
  obtain ⟨p1, p2, p3, p4, p5, p6, p7, p8, p9, p10⟩ := openStep_props env st hfo hzt
  unfold openGate
  rw [if_pos hguard]
  dsimp only
  split_ifs <;> simp_all

theorem openGate_opened (env : WEnv) (st : UD) (rest : Nat)
    (h1 : st.bufData = []) (h2 : st.bufMax = 0) (h3 : st.fileOpened = true) :
    ∃ n, openGate env st rest = { st with pNow := n } := by
  unfold openGate openStep
  rw [if_pos (Or.inl (by rw [h1, h2]; rfl))]
  rw [if_pos h3]
  dsimp only
  split_ifs <;>
    first
      | exact ⟨st.pNow + st.bufData.length + rest, rfl⟩
      | exact ⟨st.pNow + st.bufData.length, rfl⟩
      | exact ⟨st.pNow + rest, rfl⟩
      | exact ⟨st.pNow, rfl⟩
      | simp_all



theorem writeCb_fresh_small (env : WEnv) (unzip : Bool) (A ch : List Nat) (st : UD)
    (hf : freshState unzip A st) (hlen : A.length + ch.length < 256) :
    freshState unzip (A ++ ch) (writeCb env st ch) := by
  obtain ⟨h1, h2, h3, h4, h5, h6, h7, h8, h9, h10, h11, h12⟩ := hf
  unfold writeCb
  rw [bufferStep_small st ch A h1 h2 (le_of_lt hlen)]
  dsimp only
  have hng : ¬(({ st with bufData := A ++ ch } : UD).bufData.length =
      ({ st with bufData := A ++ ch } : UD).bufMax ∨
      ({ st with bufData := A ++ ch } : UD).flush = true) := by
    dsimp only
    rw [h2, h3, List.length_append]
    simp
    omega
  rw [sniffGate_skip _ (fun hx => hng hx.1), openGate_skip _ _ _ hng]
  exact tailGate_fresh env unzip (A ++ ch) _ ⟨rfl, h2, h3, h4, h5, h6, h7, h8, h9, h10, h11, h12⟩

theorem writeCb_sniffed (env : WEnv) (unzip : Bool) (bs : List Nat) (st : UD)
    (ch : List Nat) (h : sniffedState env unzip bs st) :
    sniffedState env unzip bs (writeCb env st ch) := by
  obtain ⟨h1, h2, h3, h4, h5, h6, h7, h8, h9⟩ := h
  unfold writeCb
  have hb : bufferStep st ch = (st, ch.length) := by
    unfold bufferStep
    rw [if_neg (by rw [h1, h2]; simp)]
  rw [hb]
  dsimp only
  rw [sniffGate_skip _ (by rw [h1]; simp)]
  obtain ⟨n, hn⟩ := openGate_opened env st ch.length h1 h2 h3
  rw [hn]
  exact tailGate_sniffed env unzip bs _ ⟨h1, h2, h3, h4, h5, h6, h7, h8, h9⟩

theorem take_length_eq (A ch : List Nat) (h : 256 ≤ A.length + ch.length) :
    ((A ++ ch).take 256).length = 256 := by
  rw [List.length_take, List.length_append]
  omega

theorem sniffStep_fresh (unzip : Bool) (B : List Nat) (st : UD)
    (hbd : st.bufData = B) (huz : st.unzip = unzip) (h11 : 11 ≤ B.length)
    (hg : st.gzip = false) (hc : st.cramfs = false)
    (ho : st.origName = Option.none) (hi : st.imageSize = 0) :
    sniffStep st = { st with gzip := gzipCond unzip B,
                             cramfs := cramfsCond unzip B,
                             origName := sniffName unzip B,
                             imageSize := sniffSize unzip B } := by
  rw [sniffStep_chars st (by rw [hbd]; exact h11) hg hc ho hi, hbd, huz]

theorem openGate_sniffed (env : WEnv) (unzip : Bool) (B : List Nat)
    (st2 : UD) (rest : Nat)
    (hguard : st2.bufData.length = st2.bufMax ∨ st2.flush = true)
    (hfo : st2.fileOpened = false) (hzt : st2.zpTotal = 0) (hbm : st2.bufMax ≠ 0)
    (huz : st2.unzip = unzip) (hgz : st2.gzip = gzipCond unzip B)
    (hcf : st2.cramfs = cramfsCond unzip B) (hon : st2.origName = sniffName unzip B)
    (him : st2.imageSize = sniffSize unzip B) :
    sniffedState env unzip B (openGate env st2 rest) := by
  obtain ⟨e1, e2, e3, e4, e5, e6, e7, e8, e9⟩ := openGate_event env st2 rest hguard hfo hzt hbm
  refine ⟨e1, e2, e3, by rw [e4, huz], by rw [e5, hgz], by rw [e6, hcf],
    by rw [e7, hon], by rw [e8, him], ?_⟩
  rw [e9, hgz, him]
  unfold zpTotalOf
  rfl

theorem writeCb_fresh_event (env : WEnv) (unzip : Bool) (A ch : List Nat) (st : UD)
    (hf : freshState unzip A st) (hA : A.length < 256)
    (hfill : 256 ≤ A.length + ch.length) :
    sniffedState env unzip ((A ++ ch).take 256) (writeCb env st ch) := by
  obtain ⟨h1, h2, h3, h4, h5, h6, h7, h8, h9, h10, h11, h12⟩ := hf
  unfold writeCb
  dsimp only
  have hbuf : (bufferStep st ch).1 = { st with bufData := (A ++ ch).take 256 } := by
    rcases Nat.lt_or_ge 256 (A.length + ch.length) with hgt | hge
    · rw [bufferStep_fill st ch A h1 h2 hA hgt]
    · have he : A.length + ch.length = 256 := by omega
      rw [bufferStep_small st ch A h1 h2 (le_of_eq he)]
      dsimp only
      rw [List.take_of_length_le (by rw [List.length_append]; omega)]
  rw [hbuf]
  have hlenB : ((A ++ ch).take 256).length = 256 := take_length_eq A ch hfill
  have hsg : sniffGate { st with bufData := (A ++ ch).take 256 } =
      sniffStep { st with bufData := (A ++ ch).take 256 } := by
    unfold sniffGate
    rw [if_pos ⟨Or.inl (by dsimp only; rw [hlenB, h2]), by dsimp only; omega⟩]
  rw [hsg]
  rw [sniffStep_fresh unzip ((A ++ ch).take 256)
    { st with bufData := (A ++ ch).take 256 } rfl h4 (by omega) h5 h6 h7 h8]
  apply tailGate_sniffed
  exact openGate_sniffed env unzip ((A ++ ch).take 256)
    { ({ st with bufData := (A ++ ch).take 256 } : UD) with
        gzip := gzipCond unzip ((A ++ ch).take 256),
        cramfs := cramfsCond unzip ((A ++ ch).take 256),
        origName := sniffName unzip ((A ++ ch).take 256),
        imageSize := sniffSize unzip ((A ++ ch).take 256) }
    (bufferStep st ch).2
    (Or.inl (show ((A ++ ch).take 256).length = st.bufMax by rw [hlenB, h2]))
    h9 h10 (show st.bufMax ≠ 0 by rw [h2]; omega) h4 rfl rfl rfl rfl



theorem sniff_short (unzip : Bool) (B : List Nat) (h : B.length < 11) :
    gzipCond unzip B = false ∧ cramfsCond unzip B = false ∧
    sniffName unzip B = Option.none ∧ sniffSize unzip B = 0 := by
  have hg : gzipCond unzip B = false := by
    simp only [gzipCond, decide_eq_false_iff_not]
    exact fun hx => absurd hx.1 (by omega)
  have hc : cramfsCond unzip B = false := by
    simp only [cramfsCond, decide_eq_false_iff_not]
    exact fun hx => absurd hx.1 (by omega)
  have hn : sniffName unzip B = Option.none := by
    simp [sniffName, hg, hc]
  exact ⟨hg, hc, hn, by unfold sniffSize; rw [hn]; rfl⟩

theorem writeCb_fresh_flush (env : WEnv) (unzip : Bool) (A : List Nat) (st : UD)
    (hf : freshState unzip A st) (hA : A.length < 256) :
    sniffedState env unzip A (writeCb env { st with flush := true } []) := by
  obtain ⟨h1, h2, h3, h4, h5, h6, h7, h8, h9, h10, h11, h12⟩ := hf
  unfold writeCb
  dsimp only
  have hb : bufferStep { st with flush := true } [] = ({ st with flush := true }, 0) := by
    unfold bufferStep
    rw [if_neg (by simp)]
    rfl
  rw [hb]
  dsimp only
  by_cases h11b : 11 ≤ A.length
  · have hsg : sniffGate { st with flush := true } =
        sniffStep { st with flush := true } := by
      unfold sniffGate
      rw [if_pos ⟨Or.inr rfl, by dsimp only; rw [h1]; omega⟩]
    rw [hsg]
    rw [sniffStep_fresh unzip A { st with flush := true } h1 h4 h11b h5 h6 h7 h8]
    apply tailGate_sniffed
    exact openGate_sniffed env unzip A
      { ({ st with flush := true } : UD) with
          gzip := gzipCond unzip A, cramfs := cramfsCond unzip A,
          origName := sniffName unzip A, imageSize := sniffSize unzip A }
      0 (Or.inr rfl) h9 h10 (show st.bufMax ≠ 0 by rw [h2]; omega) h4 rfl rfl rfl rfl
  · obtain ⟨hg0, hc0, hn0, hs0⟩ := sniff_short unzip A (by omega)
    have hsg : sniffGate { st with flush := true } = { st with flush := true } := by
      apply sniffGate_skip
      intro hx
      exact h11b (by simpa [h1] using hx.2)
    rw [hsg]
    apply tailGate_sniffed
    refine openGate_sniffed env unzip A { st with flush := true } 0 (Or.inr rfl)
      h9 h10 (show st.bufMax ≠ 0 by rw [h2]; omega) h4 ?_ ?_ ?_ ?_
    · rw [hg0]; exact h5
    · rw [hc0]; exact h6
    · rw [hn0]; exact h7
    · rw [hs0]; exact h8

theorem foldl_sniffed (env : WEnv) (unzip : Bool) (bs : List Nat)
    (cs : List (List Nat)) (st : UD) (h : sniffedState env unzip bs st) :
    sniffedState env unzip bs (cs.foldl (writeCb env) st) := by
  induction cs generalizing st with
  | nil => exact h
  | cons c cs2 ih => exact ih _ (writeCb_sniffed env unzip bs st c h)

theorem take_stable (X Y : List Nat) (h : 256 ≤ X.length) :
    (X ++ Y).take 256 = X.take 256 := by
  rw [List.take_append_eq_append_take]
  have : 256 - X.length = 0 := by omega
  rw [this]
  simp

theorem foldl_inv (env : WEnv) (unzip : Bool) (chunks : List (List Nat))
    (A : List Nat) (st : UD) (hf : freshState unzip A st) (hA : A.length < 256) :
    ((A ++ chunks.flatten).length < 256 ∧
      freshState unzip (A ++ chunks.flatten) (chunks.foldl (writeCb env) st)) ∨
    sniffedState env unzip ((A ++ chunks.flatten).take 256)
      (chunks.foldl (writeCb env) st) := by
  induction chunks generalizing A st with
  | nil =>
    left
    rw [List.flatten_nil, List.append_nil]
    exact ⟨hA, hf⟩
  | cons c cs ih =>
    rw [List.flatten_cons, List.foldl_cons, ← List.append_assoc]
    by_cases hsm : A.length + c.length < 256
    · exact ih (A ++ c) _ (writeCb_fresh_small env unzip A c st hf hsm)
        (by rw [List.length_append]; omega)
    · right
      have hev := writeCb_fresh_event env unzip A c st hf hA (by omega)
      have hst : ((A ++ c) ++ cs.flatten).take 256 = (A ++ c).take 256 := by
        apply take_stable
        rw [List.length_append]
        omega
      rw [hst]
      exact foldl_sniffed env unzip _ cs _ hev

theorem initUD_fresh (unzip : Bool) : freshState unzip [] (initUD unzip) :=
  ⟨rfl, rfl, rfl, rfl, rfl, rfl, rfl, rfl, rfl, rfl, rfl, rfl⟩

theorem runTransfer_sniffed (env : WEnv) (unzip : Bool) (chunks : List (List Nat)) :
    sniffedState env unzip ((chunks.flatten).take 256) (runTransfer env unzip chunks) := by
  unfold runTransfer
  dsimp only
  rcases foldl_inv env unzip chunks [] (initUD unzip) (initUD_fresh unzip) (by simp)
    with ⟨hlt, hfr⟩ | hsn
  · rw [List.nil_append] at hlt hfr
    have herr : (chunks.foldl (writeCb env) (initUD unzip)).err = 0 :=
      hfr.2.2.2.2.2.2.2.2.2.2.2
    rw [if_pos herr]
    have hfl := writeCb_fresh_flush env unzip (chunks.flatten) _ hfr hlt
    have htk : (chunks.flatten).take 256 = chunks.flatten :=
      List.take_of_length_le (by omega)
    rw [htk]
    exact writeCb_sniffed env unzip _ _ [] (sniffedState_flush env unzip _ _ false hfl)
  · rw [List.nil_append] at hsn
    by_cases herr : (chunks.foldl (writeCb env) (initUD unzip)).err = 0
    · rw [if_pos herr]
      have h2 := writeCb_sniffed env unzip _ _ []
        (sniffedState_flush env unzip _ _ true hsn)
      exact writeCb_sniffed env unzip _ _ []
        (sniffedState_flush env unzip _ _ false h2)
    · rw [if_neg herr]
      exact writeCb_sniffed env unzip _ _ []
        (sniffedState_flush env unzip _ _ false hsn)



theorem gzip_cramfs_exclusive (unzip : Bool) (bs : List Nat) :
    ¬(gzipCond unzip bs = true ∧ cramfsCond unzip bs = true) := by
  rintro ⟨hg, hc⟩
  simp only [gzipCond, decide_eq_true_eq] at hg
  simp only [cramfsCond, decide_eq_true_eq] at hc
  exact hc.2.1 ⟨hg.2.1, hg.2.2.1, hg.2.2.2⟩

theorem c4_sniff_classification (env : WEnv) (unzip : Bool) (chunks : List (List Nat)) :
    (runTransfer env unzip chunks).gzip = gzipCond unzip ((chunks.flatten).take 256) ∧
    (runTransfer env unzip chunks).cramfs = cramfsCond unzip ((chunks.flatten).take 256) ∧
    (runTransfer env unzip chunks).origName = sniffName unzip ((chunks.flatten).take 256) ∧
    ¬((runTransfer env unzip chunks).gzip = true ∧
      (runTransfer env unzip chunks).cramfs = true) := by
  obtain ⟨s1, s2, s3, s4, s5, s6, s7, s8, s9⟩ := runTransfer_sniffed env unzip chunks
  refine ⟨s5, s6, s7, ?_⟩
  rw [s5, s6]
  exact gzip_cramfs_exclusive unzip _

theorem c4_short_stream_counterexample :
    (runTransfer envAllOk true [[0x1f, 0x8b, 0x08, 0x08, 0x00]]).gzip = false := by
  decide

def gzWitnessBytes : List Nat :=
  [0x1f, 0x8b, 8, 8, 0, 0, 0, 0, 0, 0] ++ (cs "rootfs 51200").map Char.toNat ++ [0]

theorem c5_image_size_denominator (env : WEnv) (unzip : Bool)
    (chunks : List (List Nat)) (nm : List Nat) (k : Int)
    (h1 : (runTransfer env unzip chunks).origName = some nm)
    (h2 : scanWordInt nm = some k) (h3 : 0 < k)
    (h4 : (runTransfer env unzip chunks).gzip = true)
    (h5 : env.mkstempOk = true) (h6 : env.openOk = true) :
    (runTransfer env unzip chunks).imageSize = k.toNat ∧
    (runTransfer env unzip chunks).zpTotal = k.toNat <<< 10 := by
  obtain ⟨s1, s2, s3, s4, s5x, s6x, s7, s8, s9⟩ := runTransfer_sniffed env unzip chunks
  have hnm : sniffName unzip ((chunks.flatten).take 256) = some nm := by
    rw [← s7]
    exact h1
  have hsz : sniffSize unzip ((chunks.flatten).take 256) = k.toNat := by
    unfold sniffSize
    rw [hnm]
    simp [nameSizeKb, h2, h3]
  have hgz : gzipCond unzip ((chunks.flatten).take 256) = true := by
    rw [← s5x]
    exact h4
  constructor
  · rw [s8, hsz]
  · rw [s9]
    unfold zpTotalOf
    rw [if_pos ⟨hgz, h5, h6⟩, hsz]

theorem c5_image_size_denominator_witness :
    scanWordInt ((cs "rootfs 51200").map Char.toNat) = some 51200 ∧
    (runTransfer envAllOk true [gzWitnessBytes]).imageSize = 51200 ∧
    (runTransfer envAllOk true [gzWitnessBytes]).zpTotal = 51200 <<< 10 := by
  refine ⟨by decide, ?_⟩
  have hx := c5_image_size_denominator envAllOk true [gzWitnessBytes]
    ((cs "rootfs 51200").map Char.toNat) 51200
    (by decide) (by decide) (by decide) (by decide) rfl rfl
  simpa using hx

/-- Conversion of an unsigned value to the 32-bit `int percent` variable
(two's complement wrap, as on the installer's target). -/
def toInt32 (n : Nat) : Int :=
  if n % 2 ^ 32 < 2 ^ 31 then ((n % 2 ^ 32 : Nat) : Int)
  else ((n % 2 ^ 32 : Nat) : Int) - 2 ^ 32

/-- The percent computation of url_progress (url.c:801-806): the raw
counter when a raw total is known, else the decompressed counter when
that total is known, else -1; the product is a uint64_t. -/
def progressPercent (pTotal pNow zpTotal zpNow : Nat) : Int :=
  if pTotal ≠ 0 then toInt32 (100 * pNow % 2 ^ 64 / pTotal)
  else if zpTotal ≠ 0 then toInt32 (100 * zpNow % 2 ^ 64 / zpTotal)
  else -1

/-- The percentage url_progress displays on an update call (url.c:808,
843-854): clamped above at 100, and shown as a percentage only when
non-negative (otherwise the kB counter fallback is used instead). -/
def urlProgressShown (pTotal pNow zpTotal zpNow : Nat) : Option Int :=
  let p0 := progressPercent pTotal pNow zpTotal zpNow
  let p1 := if p0 > 100 then 100 else p0
  if p1 ≥ 0 then some p1 else Option.none

theorem urlProgressShown_le_100 (pT pN zT zN : Nat) (v : Int)
    (h : urlProgressShown pT pN zT zN = some v) : v ≤ 100 := by
  unfold urlProgressShown at h
  dsimp only at h
  split_ifs at h <;> first | (cases h; omega) | cases h

theorem percent_value (T c : Nat) (hz : T ≠ 0) (hb : c ≤ T)
    (h64 : 100 * T < 2 ^ 64) :
    toInt32 (100 * c % 2 ^ 64 / T) = ((100 * c / T : Nat) : Int) ∧
    100 * c / T ≤ 100 := by
  have hmle : 100 * c ≤ 100 * T := by omega
  have hmod : 100 * c % 2 ^ 64 = 100 * c := Nat.mod_eq_of_lt (by omega)
  have hqle : 100 * c / T ≤ 100 := by
    calc 100 * c / T ≤ 100 * T / T := Nat.div_le_div_right hmle
    _ = 100 := Nat.mul_div_cancel 100 (Nat.pos_of_ne_zero hz)
  refine ⟨?_, hqle⟩
  unfold toInt32
  rw [hmod]
  have hlt : 100 * c / T % 2 ^ 32 = 100 * c / T := Nat.mod_eq_of_lt (by omega)
  rw [hlt, if_pos (by omega)]

theorem shown_of_bounded (pT n zT m : Nat) (hz : pT ≠ 0) (hb : n ≤ pT)
    (h64 : 100 * pT < 2 ^ 64) :
    urlProgressShown pT n zT m = some ((100 * n / pT : Nat) : Int) := by
  obtain ⟨hv, hle⟩ := percent_value pT n hz hb h64
  have hpp : progressPercent pT n zT m = ((100 * n / pT : Nat) : Int) := by
    unfold progressPercent
    rw [if_pos hz, hv]
  unfold urlProgressShown
  dsimp only
  rw [hpp]
  have hng : ¬(((100 * n / pT : Nat) : Int) > 100) := by
    simp only [not_lt]
    exact_mod_cast hle
  rw [if_neg hng, if_pos (Int.natCast_nonneg _)]

theorem shown_of_bounded_z (pT n zT m : Nat) (hp : pT = 0) (hz : zT ≠ 0)
    (hb : m ≤ zT) (h64 : 100 * zT < 2 ^ 64) :
    urlProgressShown pT n zT m = some ((100 * m / zT : Nat) : Int) := by
  obtain ⟨hv, hle⟩ := percent_value zT m hz hb h64
  have hpp : progressPercent pT n zT m = ((100 * m / zT : Nat) : Int) := by
    unfold progressPercent
    rw [if_neg (by omega), if_pos hz, hv]
  unfold urlProgressShown
  dsimp only
  rw [hpp]
  have hng : ¬(((100 * m / zT : Nat) : Int) > 100) := by
    simp only [not_lt]
    exact_mod_cast hle
  rw [if_neg hng, if_pos (Int.natCast_nonneg _)]

theorem shown_none_of_zero (pT n zT m : Nat) (hp : pT = 0) (hz : zT = 0) :
    urlProgressShown pT n zT m = Option.none := by
  subst hp hz
  unfold urlProgressShown progressPercent
  norm_num

theorem c6_percent_clamped_and_monotone (pT zT n1 n2 m1 m2 : Nat)
    (hn : n1 ≤ n2) (hm : m1 ≤ m2)
    (hbp : n2 ≤ pT ∨ pT = 0) (hbz : m2 ≤ zT ∨ zT = 0)
    (hp64 : 100 * pT < 2 ^ 64) (hz64 : 100 * zT < 2 ^ 64) :
    (∀ pT2 pN2 zT2 zN2 v, urlProgressShown pT2 pN2 zT2 zN2 = some v → v ≤ 100) ∧
    (∀ v1 v2, urlProgressShown pT n1 zT m1 = some v1 →
      urlProgressShown pT n2 zT m2 = some v2 → v1 ≤ v2) := by
  refine ⟨fun pT2 pN2 zT2 zN2 v h => urlProgressShown_le_100 pT2 pN2 zT2 zN2 v h, ?_⟩
  intro v1 v2 h1 h2
  by_cases hpz : pT = 0
  · by_cases hzz : zT = 0
    · rw [shown_none_of_zero pT n1 zT m1 hpz hzz] at h1
      cases h1
    · have hb2 : m2 ≤ zT := by
        rcases hbz with h | h
        · exact h
        · exact absurd h hzz
      rw [shown_of_bounded_z pT n1 zT m1 hpz hzz (le_trans hm hb2) hz64] at h1
      rw [shown_of_bounded_z pT n2 zT m2 hpz hzz hb2 hz64] at h2
      cases h1
      cases h2
      exact_mod_cast Nat.div_le_div_right (by omega)
  · have hb2 : n2 ≤ pT := by
      rcases hbp with h | h
      · exact h
      · exact absurd h hpz
    rw [shown_of_bounded pT n1 zT m1 hpz (le_trans hn hb2) hp64] at h1
    rw [shown_of_bounded pT n2 zT m2 hpz hb2 hp64] at h2
    cases h1
    cases h2
    exact_mod_cast Nat.div_le_div_right (by omega)

theorem c6_wrap_counterexample :
    urlProgressShown 1 1 0 0 = some 100 ∧
    urlProgressShown 1 (2 ^ 62) 0 0 = some 0 ∧
    (1 : Nat) ≤ 2 ^ 62 ∧ ¬((100 : Int) ≤ 0) := by
  refine ⟨by decide, ?_, by norm_num, by norm_num⟩
  unfold urlProgressShown progressPercent toInt32
  norm_num

theorem c6_witness :
    (1 : Nat) ≤ 2 ∧ (2 : Nat) ≤ 4 ∧ ((2 ≤ 4 ∨ (4 : Nat) = 0) ∧ 100 * 4 < 2 ^ 64) ∧
    urlProgressShown 4 1 0 0 = some 25 ∧ urlProgressShown 4 2 0 0 = some 50 ∧
    (∀ v1 v2, urlProgressShown 4 1 0 0 = some v1 →
      urlProgressShown 4 2 0 0 = some v2 → v1 ≤ v2) := by
  refine ⟨by norm_num, by norm_num, ⟨by norm_num, by norm_num⟩, by decide, by decide, ?_⟩
  exact (c6_percent_clamped_and_monotone 4 0 1 2 0 0 (by norm_num) (by norm_num)
    (by norm_num) (by norm_num) (by norm_num) (by norm_num)).2

/-- The whitespace trimming of url.c:134-137: strip trailing whitespace
(the loop guard `i > 0` protects the first byte), then skip leading
whitespace. -/
def stripTrailingWs (l : List Char) : List Char :=
  match l with
  | [] => []
  | c :: rest => c :: (((rest.reverse).dropWhile fun x => isSpaceC x).reverse)

def trimWs (l : List Char) : List Char :=
  (stripTrailingWs l).dropWhile fun c => isSpaceC c

/-- The stream-close logic of url_read (url.c:121-149): inspect the
decompressor exit status when a pipe was used, or the fclose result
otherwise.  `tmpContent` is what the captured stderr side file holds
(NULL when there is no side file).  Note the faithful dead store: the
trimmed stderr text is copied to the error buffer and then immediately
overwritten by the fixed message (url.c:138 followed by url.c:142). -/
def gzipFinish (pipeUsed wifexited : Bool) (exitCode : Nat) (fcloseErr : Bool)
    (tmpContent : Option (List Char)) (errIn : Nat) (errBufIn : List Char) :
    Nat × List Char :=
  if pipeUsed then
    let i := if wifexited then exitCode else 0
    if i ≠ 0 ∧ i ≠ 2 then
      let buf1 :=
        match tmpContent with
        | some content => if errIn = 0 then trimWs content else errBufIn
        | Option.none => errBufIn
      let buf2 := cs "gzip: command terminated"
      (103, buf2)
    else (errIn, errBufIn)
  else
    if fcloseErr ∧ errIn = 0 then (104, errBufIn) else (errIn, errBufIn)

/-- Claim C9: the decompressor exit codes 0 and 2 are accepted; any other
code fails the transfer with error 103 -- but the captured stderr text is
NOT folded into the reported message: url.c:142 unconditionally
overwrites the copy just made at url.c:138, so the message is always the
fixed string. -/
theorem c9_stderr_text_discarded :
    gzipFinish true true 1 false (some (cs "  gzip: invalid magic  ")) 0 [] =
      (103, cs "gzip: command terminated") ∧
    (gzipFinish true true 1 false (some (cs "  gzip: invalid magic  ")) 0 []).2 ≠
      trimWs (cs "  gzip: invalid magic  ") ∧
    gzipFinish true true 0 false (some (cs "boo")) 0 (cs "keep") = (0, cs "keep") ∧
    gzipFinish true true 2 false (some (cs "boo")) 0 (cs "keep") = (0, cs "keep") := by
  decide

/-- Linux errno values tested by the NFS fallback (url.c:970). -/
def eNOENT : Nat := 2
def eNOTDIR : Nat := 20

/-- Modelled from the spec: fresh temporary mountpoints are uniquely
allocated per use (new_mountpoint of util.c, not among the sources);
allocation is tracked by a counter. -/
def mountpointName (n : Nat) : List Char := cs "/mounts/mp_" ++ natDec n

/-- Modelled from the spec: fresh download file names (new_download of
util.c, not among the sources). -/
def downloadName (n : Nat) : List Char := cs "/download/file_" ++ natDec n

/-- The `dir ?: new_mountpoint()` idiom: the caller's directory if given,
else a fresh mountpoint (bumping the allocation counter). -/
def dirOr (dir : Option (List Char)) (ctr : Nat) : List Char × Nat :=
  match dir with
  | some d => (d, ctr)
  | Option.none => (mountpointName ctr, ctr + 1)

/-- A device candidate from the hardware enumeration (hd_t, external). -/
structure Hd where
  isFloppy : Bool
  isCdrom : Bool
  hasChildren : Bool
  unixDevName : Option (List Char)
  unixDevNames : List (List Char)
  hwaddr : Option (List Char)
  model : Option (List Char)
  uniqueId : Option (List Char)
  isWlan : Bool

/-- Hardware classes url_mount enumerates (url.c:1122,1138-1152). -/
inductive HwItem where
  | network | cdrom | floppy | block
deriving DecidableEq, Repr

/-- Oracle environment for the mount orchestrator: every external
collaborator call (filesystem probing and mounting, network bootstrap
steps, hardware enumeration, device matching) is an explicit function or
flag.  None of these collaborators live in url.c. -/
structure MountEnv where
  statFn : StatFn
  fstype : List Char → Option (List Char)
  netConfigured : Bool
  netDevice : Option (List Char)
  wlanFail : Bool
  maskOk : Bool
  testMode : Bool
  dhcpAnswerOk : Bool
  activateFail : Bool
  slpResult : Option (List Char)
  addrInvalid : Bool
  mountRo : List Char → List Char → Bool
  nfsMount : List Char → List Char → Nat
  smbMount : List Char → Bool
  checkExist : List Char → Option Char
  isMountableFile : List Char → Bool
  readFileOk : Bool
  hdData : Option (HwItem → List Hd)
  matchFn : List Char → Option (List Char) → List Char → Bool
  blkIdent : List Char → List Char

/-- url_setup_device (url.c:1598-1747): load the filesystem type for a
local device (refusing swap), or bring the network interface up:
already-configured short cut, loopback/tunnel refusal, wireless setup,
DHCP/BOOTP when static parameters are missing, interface activation, the
SLP rewrite of the url, and server address validation.  Returns the
success flag and the (possibly SLP-rewritten) url. -/
def urlSetupDevice (env : MountEnv) (url : Url) : Bool × Url :=
  if url.scheme = Scheme.file then (true, url)
  else
    match url.usedDevice with
    | Option.none => (false, url)
    | some dev =>
      if ¬url.isNetwork then
        (match env.fstype dev with
         | some t => decide (t ≠ cs "swap")
         | Option.none => false, url)
      else
        if env.netConfigured ∧ env.netDevice = some dev then (true, url)
        else if dev.take 2 = cs "lo" ∨ dev.take 3 = cs "sit" then (false, url)
        else if url.isWlan ∧ env.wlanFail then (false, url)
        else if ¬env.maskOk ∧ ¬env.testMode ∧ ¬env.dhcpAnswerOk then (false, url)
        else if env.activateFail then (false, url)
        else
          let s :=
            if url.scheme = Scheme.slp then
              let t := urlSet env.statFn env.slpResult
              if t.scheme = Scheme.none then Option.none
              else some { url with
                          scheme := t.scheme, port := t.port, path := t.path,
                          server := t.server, share := t.share, user := t.user,
                          password := t.password, domain := t.domain, device := t.device,
                          instsys := t.instsys }
            else some url
          match s with
          | Option.none => (false, url)
          | some u2 => if env.addrInvalid then (false, u2) else (true, u2)

/-- The condition `s != buf && s[1]` on `strrchr(buf, '/')` of
url.c:974: the last '/' of the path, provided it is not the first
character and is followed by a non-empty final segment; yields the
parent and the final segment. -/
def splitLastSeg (p : List Char) : Option (List Char × List Char) :=
  let leafR := (p.reverse).takeWhile fun c => c ≠ '/'
  if leafR.length = p.length then Option.none
  else
    let i := p.length - leafR.length - 1
    if i = 0 ∨ leafR = [] then Option.none
    else some (p.take i, leafR.reverse)

/-- The NFS arm of url_mount_disk (url.c:966-992): mount the full path
at the target (or a fresh mountpoint); on ENOTDIR/ENOENT clear the mount
and retry with the parent directory at a fresh temporary mountpoint,
re-deriving the target path.  Returns (errno, url, derived path,
counter). -/
def nfsStep (env : MountEnv) (dir : Option (List Char)) (url : Url) (ctr : Nat) :
    Nat × Url × Option (List Char) × Nat :=
  let m := dirOr dir ctr
  let url1 := { url with mount := some m.1 }
  let p := url1.path.getD []
  let e1 := env.nfsMount m.1 p
  if e1 = eNOTDIR ∨ e1 = eNOENT then
    let url2 := { url1 with mount := Option.none }
    match splitLastSeg p with
    | some pl =>
      let mp2 := mountpointName m.2
      let e2 := env.nfsMount mp2 pl.1
      if e2 ≠ 0 then (e2, { url2 with tmpMount := Option.none }, Option.none, m.2 + 1)
      else (0, { url2 with tmpMount := some mp2 }, some (mp2 ++ '/' :: pl.2), m.2 + 1)
    | Option.none => (e1, url2, Option.none, m.2)
  else if e1 = 0 then (0, url1, some m.1, m.2)
  else (e1, url1, Option.none, m.2)

/-- Final normalization of url_mount_disk (url.c:1083-1091): a failed
call unmounts and clears both mountpoint fields. -/
def umdFinish (r : Nat × Url × Nat) : Nat × Url × Nat :=
  if r.1 = 0 then
    (0, { r.2.1 with mount := Option.none, tmpMount := Option.none }, r.2.2)
  else r

/-- The mountable-classification block of url_mount_disk
(url.c:1030-1081): classify the derived path, download-and-loopback or
mount it directly, then run the acceptance test, ending in the failure
normalization. -/
def umdMountable (env : MountEnv) (dir : Option (List Char))
    (testFunc : Option (Url → Nat)) (u : Url) (err : Nat)
    (pth : Option (List Char)) (ctr : Nat) : Nat × Url × Nat :=
  let r :=
    if err = 0 then
      if u.isMountable then
        let p := pth.getD []
        match env.checkExist p with
        | some ft =>
          let u := if ft = 'r' then { u with isFile := true } else u
          if (ft = 'r' ∨ ft = 'b') ∧ (u.download ∨ ¬env.isMountableFile p) then
            let m := dirOr dir ctr
            let u2 := { u with mount := some m.1 }
            let dl := downloadName m.2
            let ok := if env.readFileOk then (if env.mountRo dl m.1 then 1 else 0) else 0
            (ok, u2, m.2 + 1)
          else
            if u.mount = Option.none then
              let m := dirOr dir ctr
              let u2 := { u with mount := some m.1 }
              ((if env.mountRo p m.1 then 1 else 0), u2, m.2)
            else (1, u, ctr)
        | Option.none => (0, u, ctr)
      else (1, u, ctr)
    else (0, u, ctr)
  let r2 :=
    match testFunc with
    | some f => if r.1 ≠ 0 then (f r.2.1, r.2.1, r.2.2) else r
    | Option.none => r
  umdFinish r2

/-- url_mount_disk (url.c:914-1101).  `dir` is the caller's mountpoint
(NULL means allocate), `testFunc` the acceptance test, `ctr` the fresh
name counter.  Returns the tri-state result (0 failed / 1 ok / 2 ok but
continue), the mutated url, and the counter. -/
def urlMountDisk (env : MountEnv) (dir : Option (List Char))
    (testFunc : Option (Url → Nat)) (url0 : Url) (ctr0 : Nat) :
    Nat × Url × Nat :=
  if url0.scheme = Scheme.none ∨ url0.path = Option.none ∨
      (url0.usedDevice = Option.none ∧ url0.scheme ≠ Scheme.file) then
    (0, url0, ctr0)
  else
    let url1 := { url0 with mount := Option.none, tmpMount := Option.none }
    let su := urlSetupDevice env url1
    if ¬su.1 then (0, su.2, ctr0)
    else
      let u := su.2
      if ¬u.isNetwork then
        if u.scheme ≠ Scheme.file ∧ u.path ≠ some (cs "/") then
          let mp := mountpointName ctr0
          if ¬env.mountRo (u.usedDevice.getD []) mp then
            (0, { u with tmpMount := Option.none }, ctr0 + 1)
          else
            umdMountable env dir testFunc { u with tmpMount := some mp } 0
              (some (mp ++ u.path.getD [])) (ctr0 + 1)
        else
          umdMountable env dir testFunc u 0
            (if u.scheme = Scheme.file then u.path else u.usedDevice) ctr0
      else
        if u.scheme = Scheme.nfs then
          let r := nfsStep env dir u ctr0
          umdMountable env dir testFunc r.2.1 r.1 r.2.2.1 r.2.2.2
        else if u.scheme = Scheme.smb then
          if u.path ≠ some (cs "/") then
            let mp := mountpointName ctr0
            let u2 := { u with tmpMount := some mp }
            if env.smbMount mp then
              umdMountable env dir testFunc u2 0 (some (mp ++ u.path.getD [])) (ctr0 + 1)
            else
              umdMountable env dir testFunc
                { u2 with tmpMount := Option.none, mount := Option.none } 1
                Option.none (ctr0 + 1)
          else
            let m := dirOr dir ctr0
            let u2 := { u with mount := some m.1 }
            if env.smbMount m.1 then
              umdMountable env dir testFunc u2 0 (some m.1) m.2
            else
              umdMountable env dir testFunc
                { u2 with tmpMount := Option.none, mount := Option.none } 1
                Option.none m.2
        else if u.scheme = Scheme.http ∨ u.scheme = Scheme.ftp then
          umdMountable env dir testFunc u 0 Option.none ctr0
        else
          umdMountable env dir testFunc u 1 Option.none ctr0

/-- The candidate loop of url_mount (url.c:1154-1206): filter, match,
record the resolved identity, try url_mount_disk; stop at a definitive
accept, count every accept, flag every failed matched candidate.
Returns (found, err, url, counter). -/
def urlMountLoop (env : MountEnv) (dir : Option (List Char))
    (testFunc : Option (Url → Nat)) :
    List Hd → Url → Nat → Nat → Nat → Nat × Nat × Url × Nat
  | [], url, found, err, ctr => (found, err, url, ctr)
  | hd :: rest, url, found, err, ctr =>
    if ((url.scheme = Scheme.hd ∨ url.scheme = Scheme.disk) ∧
        (hd.isFloppy ∨ hd.isCdrom ∨ hd.hasChildren)) ∨
        hd.unixDevName = Option.none then
      urlMountLoop env dir testFunc rest url found err ctr
    else
      let dev := hd.unixDevName.getD []
      let matched :=
        match url.device with
        | some hint =>
          env.matchFn (shortDev dev) hd.hwaddr hint ||
          hd.unixDevNames.any fun s => env.matchFn (shortDev s) Option.none hint
        | Option.none => true
      if matched = false then urlMountLoop env dir testFunc rest url found err ctr
      else
        let url2 := { url with
          usedUniqueId := hd.uniqueId,
          usedDevice := hd.unixDevName,
          usedHwaddr := hd.hwaddr,
          usedModel :=
            match hd.model with
            | some m =>
              if m = cs "Partition" then some (m ++ cs ": " ++ env.blkIdent dev)
              else some m
            | Option.none => Option.none,
          isWlan := hd.isWlan }
        let r := urlMountDisk env dir testFunc url2 ctr
        if r.1 ≠ 0 then
          let url3 := if hd.isCdrom then { r.2.1 with isCdrom := true } else r.2.1
          if r.1 = 1 then (found + 1, err, url3, r.2.2)
          else urlMountLoop env dir testFunc rest url3 (found + 1) err r.2.2
        else urlMountLoop env dir testFunc rest r.2.1 found 1 r.2.2

/-- url_mount (url.c:1116-1225): direct delegation for `file:` or an
already-resolved device, else enumerate matching candidates of the
appropriate hardware class, with a literal-device fallback, clearing the
resolved identity on overall failure.  Returns 0 for success, 1 for
failure (note the inverse convention versus url_mount_disk). -/
def urlMount (env : MountEnv) (dir : Option (List Char))
    (testFunc : Option (Url → Nat)) (url : Url) (ctr : Nat) :
    Nat × Url × Nat :=
  if url.scheme = Scheme.none then (1, url, ctr)
  else
    match env.hdData with
    | Option.none => (1, url, ctr)
    | some hdList =>
      if url.scheme = Scheme.file ∨ url.usedDevice.isSome then
        let r := urlMountDisk env dir testFunc url ctr
        (if r.1 ≠ 0 then 0 else 1, r.2.1, r.2.2)
      else
        let item :=
          if url.isNetwork then HwItem.network
          else if url.scheme = Scheme.cdrom then HwItem.cdrom
          else if url.scheme = Scheme.floppy then HwItem.floppy
          else HwItem.block
        let lp := urlMountLoop env dir testFunc (hdList item) url 0 0 ctr
        let fb :=
          if lp.2.1 = 0 ∧ lp.1 = 0 ∧ lp.2.2.1.usedDevice = Option.none ∧
              lp.2.2.1.device.isSome then
            let u2 := { lp.2.2.1 with
                        usedDevice := some (longDev (lp.2.2.1.device.getD [])),
                        usedModel := Option.none, usedHwaddr := Option.none,
                        usedUniqueId := Option.none }
            let r := urlMountDisk env dir testFunc u2 lp.2.2.2
            (lp.1, if r.1 ≠ 0 then 0 else 1, r.2.1, r.2.2)
          else lp
        let uf :=
          if fb.2.1 ≠ 0 then
            { fb.2.2.1 with usedDevice := Option.none, usedModel := Option.none,
                            usedHwaddr := Option.none, usedUniqueId := Option.none }
          else fb.2.2.1
        (if fb.1 ≠ 0 then 0 else fb.2.1, uf, fb.2.2.2)


/-! ### Mount orchestration: environments and theorems (C7, C8, C10) -/

/-- A mount environment in which every collaborator fails or is absent. -/
def envTriv : MountEnv where
  statFn := statNone
  fstype := fun _ => Option.none
  netConfigured := false
  netDevice := Option.none
  wlanFail := false
  maskOk := false
  testMode := false
  dhcpAnswerOk := false
  activateFail := false
  slpResult := Option.none
  addrInvalid := false
  mountRo := fun _ _ => false
  nfsMount := fun _ _ => 1
  smbMount := fun _ => false
  checkExist := fun _ => Option.none
  isMountableFile := fun _ => false
  readFileOk := false
  hdData := Option.none
  matchFn := fun _ _ _ => false
  blkIdent := fun _ => []

/-- The url of the C7 counterexample: a pre-existing mount, but an empty
scheme, so the argument check of url.c:923-928 fires before url_umount
and the mount-field clearing of url.c:930-932 are reached. -/
def c7CexUrl : Url :=
  { emptyUrl with mount := some (cs "/old"), tmpMount := some (cs "/oldtmp") }

/-- C7 counterexample: url_mount_disk can return the failure value 0
with url->mount and url->tmp_mount still set — the argument check of
url.c:923-928 returns 0 before the unconditional clearing of
url.c:930-932, so a url carrying a stale mount keeps it. -/
theorem c7_stale_mount_counterexample :
    (urlMountDisk envTriv Option.none Option.none c7CexUrl 0).1 = 0 ∧
    (urlMountDisk envTriv Option.none Option.none c7CexUrl 0).2.1.mount =
      some (cs "/old") ∧
    (urlMountDisk envTriv Option.none Option.none c7CexUrl 0).2.1.tmpMount =
      some (cs "/oldtmp") := by decide

theorem umdFinish_zero (r : Nat × Url × Nat) (h : (umdFinish r).1 = 0) :
    (umdFinish r).2.1.mount = Option.none ∧ (umdFinish r).2.1.tmpMount = Option.none := by
  unfold umdFinish at *
  split_ifs at h ⊢ with h0
  · exact ⟨rfl, rfl⟩
  · exact absurd h h0

theorem umdMountable_zero (env : MountEnv) (dir : Option (List Char))
    (tf : Option (Url → Nat)) (u : Url) (err : Nat) (pth : Option (List Char))
    (ctr : Nat) (h : (umdMountable env dir tf u err pth ctr).1 = 0) :
    (umdMountable env dir tf u err pth ctr).2.1.mount = Option.none ∧
    (umdMountable env dir tf u err pth ctr).2.1.tmpMount = Option.none := by
  unfold umdMountable at *
  exact umdFinish_zero _ h

/-- url_setup_device never touches the mount or tmp_mount fields: the
only url mutation it performs is the SLP field rewrite of
url.c:1700-1711, which leaves both mountpoints alone. -/
theorem urlSetupDevice_mounts (env : MountEnv) (u : Url) :
    (urlSetupDevice env u).2.mount = u.mount ∧
    (urlSetupDevice env u).2.tmpMount = u.tmpMount := by
  unfold urlSetupDevice
  generalize urlSet env.statFn env.slpResult = t
  by_cases h1 : u.scheme = Scheme.file
  · rw [if_pos h1]; exact ⟨rfl, rfl⟩
  · rw [if_neg h1]
    cases u.usedDevice with
    | none => exact ⟨rfl, rfl⟩
    | some dev =>
      dsimp only
      split_ifs <;> simp_all

/-- C7: whenever the argument check of url.c:923-928 passes,
url_mount_disk returning the failure value 0 leaves url->mount and
url->tmp_mount both empty — device-setup failures, two-level temporary
mount failures, scheme-specific mount failures, final-mount failures and
accept-test failures all end in the unconditional unwind of
url.c:1083-1091 (or cleared the fields on their early return).  The
claim as stated is refuted only by calls that fail the argument check
and return 0 before the clearing at url.c:930-932. -/
theorem c7_failure_unwinds (env : MountEnv) (dir : Option (List Char))
    (tf : Option (Url → Nat)) (url : Url) (ctr : Nat)
    (hpre : ¬(url.scheme = Scheme.none ∨ url.path = Option.none ∨
      (url.usedDevice = Option.none ∧ url.scheme ≠ Scheme.file)))
    (hz : (urlMountDisk env dir tf url ctr).1 = 0) :
    (urlMountDisk env dir tf url ctr).2.1.mount = Option.none ∧
    (urlMountDisk env dir tf url ctr).2.1.tmpMount = Option.none := by
  have hm := urlSetupDevice_mounts env
    { url with mount := Option.none, tmpMount := Option.none }
  dsimp only at hm
  unfold urlMountDisk at hz ⊢
  rw [if_neg hpre] at hz ⊢
  dsimp only at hz ⊢
  split_ifs at hz ⊢ <;> first
    | exact hm
    | exact ⟨hm.1, rfl⟩
    | exact umdMountable_zero _ _ _ _ _ _ _ hz

/-- A cdrom url whose device setup fails (no filesystem type), driving
url_mount_disk into a post-check failure. -/
def c7wUrl : Url :=
  { emptyUrl with scheme := Scheme.cdrom, path := some (cs "/"),
                  usedDevice := some (cs "/dev/sr0") }

theorem c7_failure_unwinds_witness :
    (urlMountDisk envTriv Option.none Option.none c7wUrl 0).2.1.mount = Option.none ∧
    (urlMountDisk envTriv Option.none Option.none c7wUrl 0).2.1.tmpMount = Option.none :=
  c7_failure_unwinds envTriv Option.none Option.none c7wUrl 0 (by decide) (by decide)

/-- A hardware enumeration that yields no candidate of any class. -/
def envC8 : MountEnv := { envTriv with hdData := some (fun _ => []) }

/-- A valid mountable cdrom url with no resolved device and no device
hint. -/
def c8Url : Url :=
  { emptyUrl with scheme := Scheme.cdrom, path := some (cs "/x"), isMountable := true }

/-- C8: url_mount returns `found ? 0 : err` (url.c:1224) with both
`found` and `err` still 0 when the candidate enumeration yields nothing
and no device hint is given — no url_mount_disk call ever ran, yet the
function reports success (0) with used.device, mount and tmp_mount all
empty, contradicting its own contract (url.c:1109-1112: 0 means ok and
the resolved device and mountpoints are set). -/
theorem c8_empty_candidates_report_success :
    (urlMount envC8 Option.none Option.none c8Url 0).1 = 0 ∧
    (urlMount envC8 Option.none Option.none c8Url 0).2.1.mount = Option.none ∧
    (urlMount envC8 Option.none Option.none c8Url 0).2.1.tmpMount = Option.none ∧
    (urlMount envC8 Option.none Option.none c8Url 0).2.1.usedDevice = Option.none := by
  decide

/-- C10: when the first NFS mount of the full path fails with ENOTDIR or
ENOENT and the path has a final non-empty segment after a '/' that is
not the first character (url.c:974), the orchestrator clears url->mount,
NFS-mounts the parent directory at a fresh temporary mountpoint, and on
retry success re-derives the target path as that mountpoint joined with
the final segment, leaving the retry mountpoint in url->tmp_mount; a
failed retry clears tmp_mount and reports the retry errno. -/
theorem c10_nfs_parent_retry (env : MountEnv) (dir : Option (List Char)) (url : Url)
    (ctr : Nat) (p parent leaf : List Char)
    (hp : url.path = some p)
    (hsplit : splitLastSeg p = some (parent, leaf))
    (hfail : env.nfsMount (dirOr dir ctr).1 p = eNOTDIR ∨
             env.nfsMount (dirOr dir ctr).1 p = eNOENT) :
    (nfsStep env dir url ctr).2.1.mount = Option.none ∧
    (env.nfsMount (mountpointName (dirOr dir ctr).2) parent = 0 →
      (nfsStep env dir url ctr).1 = 0 ∧
      (nfsStep env dir url ctr).2.1.tmpMount = some (mountpointName (dirOr dir ctr).2) ∧
      (nfsStep env dir url ctr).2.2.1 =
        some (mountpointName (dirOr dir ctr).2 ++ '/' :: leaf)) ∧
    (env.nfsMount (mountpointName (dirOr dir ctr).2) parent ≠ 0 →
      (nfsStep env dir url ctr).1 =
        env.nfsMount (mountpointName (dirOr dir ctr).2) parent ∧
      (nfsStep env dir url ctr).2.1.tmpMount = Option.none) := by
  unfold nfsStep
  dsimp only
  rw [hp]
  dsimp only [Option.getD]
  rw [if_pos hfail, hsplit]
  dsimp only
  by_cases h2 : env.nfsMount (mountpointName (dirOr dir ctr).2) parent = 0
  · rw [if_neg (by simpa using h2)]
    exact ⟨rfl, fun _ => ⟨rfl, rfl, rfl⟩, fun hne => absurd h2 hne⟩
  · rw [if_pos h2]
    exact ⟨rfl, fun hz => absurd hz h2, fun _ => ⟨rfl, rfl⟩⟩

/-- An NFS server that rejects the full path /a/b with ENOTDIR but
accepts its parent /a. -/
def envC10 : MountEnv :=
  { envTriv with nfsMount := fun _ pth => if pth = cs "/a/b" then 20 else 0 }

def c10Url : Url := { emptyUrl with scheme := Scheme.nfs, path := some (cs "/a/b") }

theorem c10_nfs_parent_retry_witness :
    (nfsStep envC10 Option.none c10Url 0).2.1.mount = Option.none ∧
    ((nfsStep envC10 Option.none c10Url 0).1 = 0 ∧
     (nfsStep envC10 Option.none c10Url 0).2.1.tmpMount = some (mountpointName 1) ∧
     (nfsStep envC10 Option.none c10Url 0).2.2.1 =
       some (mountpointName 1 ++ '/' :: cs "b")) := by
  have h := c10_nfs_parent_retry envC10 Option.none c10Url 0 (cs "/a/b") (cs "/a") (cs "b")
    (by decide) (by decide) (by decide)
  exact ⟨h.1, h.2.1 (by decide)⟩



/-! ### C1: serialization round-trip lemma library -/

theorem splitFirst_not_mem {c : Char} {l : List Char} (h : c ∉ l) :
    splitFirst c l = Option.none := by
  induction l with
  | nil => rfl
  | cons a rest ih =>
    have ha : a ≠ c := fun he => h (he ▸ List.mem_cons_self a rest)
    have hr : c ∉ rest := fun hm => h (List.mem_cons_of_mem a hm)
    simp [splitFirst, ha, ih hr]

theorem splitFirst_append {c : Char} {l1 : List Char} (h : c ∉ l1) (l2 : List Char) :
    splitFirst c (l1 ++ c :: l2) = some (l1, l2) := by
  induction l1 with
  | nil => simp [splitFirst]
  | cons a rest ih =>
    have ha : a ≠ c := fun he => h (he ▸ List.mem_cons_self a rest)
    have hr : c ∉ rest := fun hm => h (List.mem_cons_of_mem a hm)
    simp [splitFirst, ha, ih hr]

theorem takeWhile_append_all {p : Char → Bool} {l1 l2 : List Char}
    (h1 : ∀ x ∈ l1, p x = true)
    (h2 : ∀ c, l2.head? = some c → p c = false) :
    (l1 ++ l2).takeWhile p = l1 := by
  induction l1 with
  | nil =>
    cases l2 with
    | nil => rfl
    | cons b t => simp [List.takeWhile, h2 b rfl]
  | cons a rest ih =>
    have ha := h1 a (List.mem_cons_self a rest)
    simp [List.takeWhile, ha, ih (fun x hx => h1 x (List.mem_cons_of_mem a hx))]

/-- Characters that can appear in curl_easy_escape output. -/
def escSafe (c : Char) : Bool :=
  isUnreserved c ∨ c = '%' ∨ ('0' ≤ c ∧ c ≤ '9') ∨ ('A' ≤ c ∧ c ≤ 'F')

theorem hexUp_safe {m : Nat} (h : m < 16) : escSafe (hexUp m) = true := by
  interval_cases m <;> decide

theorem mem_curlEscape {c : Char} {l : List Char} (h : c ∈ curlEscape l) :
    escSafe c = true := by
  induction l with
  | nil => simp [curlEscape] at h
  | cons a rest ih =>
    by_cases hu : isUnreserved a
    · rw [curlEscape, if_pos hu] at h
      rcases List.mem_cons.1 h with he | hm
      · subst he; simp [escSafe, hu]
      · exact ih hm
    · rw [curlEscape, if_neg hu] at h
      rcases List.mem_cons.1 h with he | h
      · subst he; decide
      rcases List.mem_cons.1 h with he | h
      · subst he; exact hexUp_safe (Nat.mod_lt _ (by norm_num))
      rcases List.mem_cons.1 h with he | h
      · subst he; exact hexUp_safe (Nat.mod_lt _ (by norm_num))
      · exact ih h

theorem curlEscape_not_mem {c : Char} (hc : escSafe c = false) (l : List Char) :
    c ∉ curlEscape l := fun h => by rw [mem_curlEscape h] at hc; exact Bool.noConfusion hc

theorem natDecF_digits {fuel n : Nat} {c : Char} (h : c ∈ natDecF fuel n) :
    '0' ≤ c ∧ c ≤ '9' := by
  induction fuel generalizing n with
  | zero => simp [natDecF] at h
  | succ f ih =>
    by_cases hn : n < 10
    · rw [natDecF, if_pos hn] at h
      rcases List.mem_singleton.1 h with he
      subst he
      interval_cases n <;> decide
    · rw [natDecF, if_neg hn] at h
      rcases List.mem_append.1 h with hm | hm
      · exact ih hm
      · rcases List.mem_singleton.1 hm with he
        subst he
        have h10 : n % 10 < 10 := Nat.mod_lt _ (by norm_num)
        set m := n % 10 with hm2
        clear_value m
        interval_cases m <;> decide

theorem natDec_digits {n : Nat} {c : Char} (h : c ∈ natDec n) :
    '0' ≤ c ∧ c ≤ '9' := natDecF_digits h

theorem hexVal_digit {m : Nat} (h : m < 10) :
    hexVal (Char.ofNat (48 + m)) = some m := by
  interval_cases m <;> decide

theorem stDigits_append10 {l1 : List Char} {acc seen a1 s1 : Nat}
    (h : stDigits 10 acc seen l1 = (a1, s1, [])) (l2 : List Char) :
    stDigits 10 acc seen (l1 ++ l2) = stDigits 10 a1 s1 l2 := by
  induction l1 generalizing acc seen with
  | nil =>
    simp [stDigits] at h
    rw [List.nil_append, h.1, h.2]
  | cons c rest ih =>
    cases hv : hexVal c with
    | none => simp [stDigits, hv] at h
    | some v =>
      by_cases hlt : v < 10
      · simp only [List.cons_append, stDigits, hv, if_pos hlt] at h ⊢
        exact ih h
      · simp [stDigits, hv, hlt] at h

theorem natDecF_val (fuel : Nat) :
    ∀ n acc seen, n ≤ fuel →
      ∃ k, 1 ≤ k ∧
        stDigits 10 acc seen (natDecF (fuel + 1) n) = (acc * 10 ^ k + n, seen + k, []) := by
  induction fuel with
  | zero =>
    intro n acc seen hn
    interval_cases n
    refine ⟨1, le_refl 1, ?_⟩
    simp [natDecF, stDigits, hexVal]
  | succ f ih =>
    intro n acc seen hn
    by_cases h10 : n < 10
    · refine ⟨1, le_refl 1, ?_⟩
      rw [natDecF, if_pos h10]
      simp only [stDigits, hexVal_digit h10, if_pos h10, pow_one]
    · have hdiv : n / 10 ≤ f := by omega
      obtain ⟨k, hk1, hk⟩ := ih (n / 10) acc seen hdiv
      refine ⟨k + 1, by omega, ?_⟩
      rw [natDecF, if_neg h10]
      rw [stDigits_append10 hk]
      have hm : n % 10 < 10 := Nat.mod_lt _ (by norm_num)
      simp only [stDigits, hexVal_digit hm, if_pos hm]
      have hv2 : (acc * 10 ^ k + n / 10) * 10 + n % 10 = acc * 10 ^ (k + 1) + n := by
        have hdm : 10 * (n / 10) + n % 10 = n := Nat.div_add_mod n 10
        calc (acc * 10 ^ k + n / 10) * 10 + n % 10
            = acc * 10 ^ (k + 1) + (10 * (n / 10) + n % 10) := by ring
          _ = acc * 10 ^ (k + 1) + n := by rw [hdm]
      rw [hv2]
      have hs : seen + k + 1 = seen + (k + 1) := by omega
      rw [hs]

theorem natDecF_head (fuel : Nat) :
    ∀ n, 1 ≤ n → n ≤ fuel + 1 →
      ∃ c r, natDecF (fuel + 1) n = c :: r ∧ '1' ≤ c ∧ c ≤ '9' := by
  induction fuel with
  | zero =>
    intro n h1 h2
    interval_cases n
    exact ⟨'1', [], by decide, by decide, by decide⟩
  | succ f ih =>
    intro n h1 h2
    by_cases h10 : n < 10
    · refine ⟨Char.ofNat (48 + n), [], by rw [natDecF, if_pos h10], ?_, ?_⟩ <;>
        · interval_cases n <;> decide
    · have hdiv1 : 1 ≤ n / 10 := by omega
      have hdiv2 : n / 10 ≤ f + 1 := by omega
      obtain ⟨c, r, hcr, hc1, hc9⟩ := ih (n / 10) hdiv1 hdiv2
      exact ⟨c, r ++ [Char.ofNat (48 + n % 10)],
        by rw [natDecF, if_neg h10, hcr, List.cons_append], hc1, hc9⟩

theorem strtoul0_natDec {n : Nat} (h1 : 1 ≤ n) (h64 : n < 2 ^ 64) :
    strtoul0 (natDec n) = (n, []) := by
  obtain ⟨c, r, hcr, hc1, hc9⟩ := natDecF_head n n h1 (Nat.le_succ n)
  obtain ⟨k, hk1, hk⟩ := natDecF_val n n 0 0 (le_refl n)
  rw [natDec] at *
  rw [hcr] at hk ⊢
  have hcn1 : (49 : Nat) ≤ c.toNat := hc1
  have hcn9 : c.toNat ≤ 57 := hc9
  have hsp : isSpaceC c = false := by
    simp only [isSpaceC, decide_eq_false_iff_not]
    rw [not_or]
    constructor
    · intro he; subst he; simp at hcn1
    · omega
  have hcm : c ≠ '-' := by intro he; subst he; simp at hcn1
  have hcp : c ≠ '+' := by intro he; subst he; simp at hcn1
  have hc0 : c ≠ '0' := by intro he; subst he; exact absurd hcn1 (by decide)
  have hs1 : (some c = some '-' ∨ some c = some '+') = False := by simp [hcm, hcp]
  have hs2 : (some c = some '0') = False := by simp [hc0]
  have hs3 : (c :: r = ['0']) = False := by simp [hc0]
  unfold strtoul0
  rw [List.dropWhile_cons, hsp]
  simp only [Bool.false_eq_true, if_false, List.head?_cons, hs1, hs2, hs3,
    false_and, and_false]
  rw [hk]
  simp only [Nat.zero_add, Nat.zero_mul, Nat.add_zero]
  rw [if_neg (by omega : ¬(k = 0)), if_neg (by omega : ¬(n ≥ 2 ^ 64))]
  simp [hcm]

theorem curlUnescape_cons {c : Char} (hc : c ≠ '%') (l : List Char) :
    curlUnescape (c :: l) = c :: curlUnescape l := by
  conv_lhs => unfold curlUnescape
  split
  · rename_i heq
    exact absurd heq (List.cons_ne_nil c l)
  · rename_i a b r2 heq
    rw [List.cons.injEq] at heq
    exact absurd heq.1 hc
  · rename_i a heq
    rw [List.cons.injEq] at heq
    exact absurd heq.1 hc
  · rename_i c2 rest hg1 hg2 heq
    rw [List.cons.injEq] at heq
    rw [heq.1, heq.2]

theorem hexVal_hexUp {m : Nat} (h : m < 16) : hexVal (hexUp m) = some m := by
  interval_cases m <;> decide

theorem curlUnescape_curlEscape {l : List Char} (h : ∀ c ∈ l, c.toNat < 256) :
    curlUnescape (curlEscape l) = l := by
  induction l with
  | nil => rfl
  | cons c rest ih =>
    have hc := h c (List.mem_cons_self c rest)
    have ihr := ih (fun x hx => h x (List.mem_cons_of_mem c hx))
    by_cases hu : isUnreserved c
    · rw [curlEscape, if_pos hu]
      have hcp : c ≠ '%' := by intro he; subst he; exact absurd hu (by decide)
      rw [curlUnescape_cons hcp, ihr]
    · rw [curlEscape, if_neg hu]
      rw [curlUnescape]
      rw [hexVal_hexUp (by omega : c.toNat / 16 % 16 < 16)]
      rw [hexVal_hexUp (by omega : c.toNat % 16 < 16)]
      dsimp only
      have hv : 16 * (c.toNat / 16 % 16) + c.toNat % 16 = c.toNat := by omega
      rw [hv, Char.ofNat_toNat, ihr]

theorem curlUnescape_id {l : List Char} (h : '%' ∉ l) : curlUnescape l = l := by
  induction l with
  | nil => rfl
  | cons c rest ih =>
    have hc : c ≠ '%' := fun he => h (he ▸ List.mem_cons_self c rest)
    rw [curlUnescape_cons hc, ih (fun hm => h (List.mem_cons_of_mem c hm))]

theorem curlUnescape_2F (l : List Char) :
    curlUnescape ('%' :: '2' :: 'F' :: l) = '/' :: curlUnescape l := rfl

theorem schemeName_colon (sch : Scheme) : ':' ∉ schemeName sch := by
  cases sch <;> decide

theorem fileSym2num_schemeName {sch : Scheme} (h : sch ≠ Scheme.none) :
    fileSym2num (schemeName sch) = some sch := by
  cases sch <;> first | exact absurd rfl h | decide

theorem mountable_ne_ftp {sch : Scheme} (h : sch ∈ mountableSchemes) :
    sch ≠ Scheme.ftp := by
  cases sch <;> first | decide | exact absurd h (by decide)

theorem escSafe_ne {c : Char} (h : escSafe c = true) :
    c ≠ '/' ∧ c ≠ '?' ∧ c ≠ ';' ∧ c ≠ '@' ∧ c ≠ ':' := by
  refine ⟨?_, ?_, ?_, ?_, ?_⟩ <;> rintro rfl <;> exact absurd h (by decide)

theorem digit_ne {c : Char} (h1 : '0' ≤ c) (h2 : c ≤ '9') :
    c ≠ '/' ∧ c ≠ '?' ∧ c ≠ ';' ∧ c ≠ '@' ∧ c ≠ ':' := by
  have hn1 : (48 : Nat) ≤ c.toNat := h1
  have hn2 : c.toNat ≤ 57 := h2
  refine ⟨?_, ?_, ?_, ?_, ?_⟩ <;> rintro rfl <;> simp_all

theorem probeGoF_statNone (fuel : Nat) (pre rest : List Char) :
    probeGoF statNone (fuel + 1) pre rest = Option.none := by
  rw [probeGoF]
  split_ifs <;> rfl

theorem devProbe_statNone (v : Url) : devProbe statNone v = v := by
  unfold devProbe
  split_ifs with h
  · cases hp : v.path with
    | none => rfl
    | some p =>
      dsimp only
      rw [probeGo, probeGoF_statNone]
  · rfl

theorem queryDevice_shape (v : Url) : ∃ d', queryDevice v = { v with device := d' } := by
  unfold queryDevice
  cases slistGetentry v.query (cs "device") with
  | none => exact ⟨v.device, rfl⟩
  | some e =>
    dsimp only
    cases e.value with
    | none => exact ⟨v.device, rfl⟩
    | some w => exact ⟨_, rfl⟩

theorem queryInstsys_shape (v : Url) : ∃ i', queryInstsys v = { v with instsys := i' } := by
  unfold queryInstsys
  cases slistGetentry v.query (cs "instsys") with
  | none => exact ⟨v.instsys, rfl⟩
  | some e => exact ⟨_, rfl⟩

/-- The share/path/device suffix of url_print, as one text. -/
def tailText (u : Url) : List Char := shareText u ++ pathText u ++ devText u

theorem urlPrint_split (u : Url) : urlPrint u 2 = printAuth u ++ tailText u := by
  simp [urlPrint, tailText, List.append_assoc]


theorem splitFirst_append_left {c : Char} {l1 : List Char} (h : c ∉ l1) (l2 : List Char) :
    splitFirst c (l1 ++ l2) =
      (splitFirst c l2).map (fun q => (l1 ++ q.1, q.2)) := by
  induction l1 with
  | nil =>
    cases h2 : splitFirst c l2 <;> simp [h2]
  | cons a rest ih =>
    have ha : a ≠ c := fun he => h (he ▸ List.mem_cons_self a rest)
    have hr : c ∉ rest := fun hm => h (List.mem_cons_of_mem a hm)
    rw [List.cons_append, splitFirst, if_neg ha, ih hr]
    cases h2 : splitFirst c l2 <;> simp [h2]

theorem splitFirst_cons_ne {c a : Char} (h : a ≠ c) (l : List Char) :
    splitFirst c (a :: l) =
      (splitFirst c l).map (fun q => (a :: q.1, q.2)) := by
  rw [splitFirst, if_neg h]
  cases h2 : splitFirst c l <;> simp [h2]

theorem esc_no_semi (x : List Char) : ';' ∉ curlEscape x :=
  curlEscape_not_mem (by decide) x
theorem esc_no_at (x : List Char) : '@' ∉ curlEscape x :=
  curlEscape_not_mem (by decide) x
theorem esc_no_colon (x : List Char) : ':' ∉ curlEscape x :=
  curlEscape_not_mem (by decide) x
theorem esc_no_slash (x : List Char) : '/' ∉ curlEscape x :=
  curlEscape_not_mem (by decide) x
theorem esc_no_q (x : List Char) : '?' ∉ curlEscape x :=
  curlEscape_not_mem (by decide) x

theorem natDec_no_semi (n : Nat) : ';' ∉ natDec n :=
  fun h => absurd (natDec_digits h) (by decide)
theorem natDec_no_at (n : Nat) : '@' ∉ natDec n :=
  fun h => absurd (natDec_digits h) (by decide)
theorem natDec_no_slash (n : Nat) : '/' ∉ natDec n :=
  fun h => absurd (natDec_digits h) (by decide)
theorem natDec_no_q (n : Nat) : '?' ∉ natDec n :=
  fun h => absurd (natDec_digits h) (by decide)

theorem natDec_ne_nil {n : Nat} (h : 1 ≤ n) : natDec n ≠ [] := by
  obtain ⟨c, r, hcr, _, _⟩ := natDecF_head n n h (Nat.le_succ n)
  rw [natDec, hcr]
  simp

theorem splitFirst_here (c : Char) (l : List Char) :
    splitFirst c (c :: l) = some ([], l) := by simp [splitFirst]

theorem parseAuth_print (u0 : Url) (dom usr pw : Option (List Char)) (v : List Char)
    (port : Nat)
    (hdom : ∀ d, dom = some d → ';' ∉ d)
    (hv1 : ';' ∉ v) (hv2 : '@' ∉ v) (hv3 : ':' ∉ v)
    (hpwu : pw.isSome → usr.isSome)
    (hport : port < 2 ^ 32) :
    parseAuth (authText dom usr pw v port) u0 =
      { u0 with domain := dom, user := usr.map curlEscape,
                password := pw.map curlEscape, server := some v, port := port } := by
  have hspv : splitFirst ':' (v ++ (if port ≠ 0 then ':' :: natDec port else [])) =
      if port ≠ 0 then some (v, natDec port) else Option.none := by
    by_cases hp : port = 0
    · simp only [hp, ne_eq, not_true_eq_false, if_false, List.append_nil]
      exact splitFirst_not_mem hv3
    · simp only [ne_eq, hp, not_false_eq_true, if_true]
      exact splitFirst_append hv3 _
  have hsemiR : ';' ∉ v ++ (if port ≠ 0 then ':' :: natDec port else []) := by
    intro hm
    rcases List.mem_append.1 hm with hm | hm
    · exact hv1 hm
    · by_cases hp : port = 0
      · simp [hp] at hm
      · simp only [ne_eq, hp, not_false_eq_true, if_true] at hm
        rcases List.mem_cons.1 hm with he | hm
        · exact absurd he (by decide)
        · exact natDec_no_semi port hm
  have hatR : '@' ∉ v ++ (if port ≠ 0 then ':' :: natDec port else []) := by
    intro hm
    rcases List.mem_append.1 hm with hm | hm
    · exact hv2 hm
    · by_cases hp : port = 0
      · simp [hp] at hm
      · simp only [ne_eq, hp, not_false_eq_true, if_true] at hm
        rcases List.mem_cons.1 hm with he | hm
        · exact absurd he (by decide)
        · exact natDec_no_at port hm
  cases dom with
  | some d =>
    have hd := hdom d rfl
    cases usr with
    | some x =>
      cases pw with
      | some y =>
        unfold parseAuth authText
        simp only [List.append_assoc, List.singleton_append, List.cons_append,
          List.nil_append, Option.isSome_some, true_or, if_true]
        rw [splitFirst_append_left hd, splitFirst_here]
        try dsimp only
        simp only [Option.map_some', List.append_nil]
        rw [splitFirst_append_left (esc_no_at x),
          splitFirst_cons_ne (by decide : ':' ≠ '@'),
          splitFirst_append (esc_no_at y)]
        try dsimp only
        simp only [Option.map_some']
        rw [splitFirst_append (esc_no_colon x)]
        try dsimp only
        rw [hspv]
        try dsimp only
        by_cases hp : port = 0
        · simp [hp]
        · simp only [ne_eq, hp, not_false_eq_true, if_true]
          rw [if_pos (natDec_ne_nil (by omega : 1 ≤ port)),
            strtoul0_natDec (by omega) (by omega)]
          have hmod := Nat.mod_eq_of_lt hport
          simp [hmod]
          try omega
      | none =>
        unfold parseAuth authText
        simp only [List.append_assoc, List.singleton_append, List.cons_append,
          List.nil_append, Option.isSome_some, Option.isSome_none, true_or, if_true]
        rw [splitFirst_append_left hd, splitFirst_here]
        try dsimp only
        simp only [Option.map_some', List.append_nil]
        rw [splitFirst_append (esc_no_at x)]
        try dsimp only
        rw [splitFirst_not_mem (esc_no_colon x)]
        try dsimp only
        rw [hspv]
        try dsimp only
        by_cases hp : port = 0
        · simp [hp]
        · simp only [ne_eq, hp, not_false_eq_true, if_true]
          rw [if_pos (natDec_ne_nil (by omega : 1 ≤ port)),
            strtoul0_natDec (by omega) (by omega)]
          have hmod := Nat.mod_eq_of_lt hport
          simp [hmod]
          try omega
    | none =>
      cases pw with
      | some y => exact absurd (hpwu (by simp)) (by simp)
      | none =>
        unfold parseAuth authText
        simp only [List.append_assoc, List.singleton_append, List.cons_append,
          List.nil_append, Option.isSome_none, Bool.false_eq_true, false_or,
          or_false, or_self, if_false]
        rw [splitFirst_append_left hd, splitFirst_here]
        try dsimp only
        simp only [Option.map_some', List.append_nil]
        rw [splitFirst_not_mem hatR]
        try dsimp only
        rw [hspv]
        try dsimp only
        by_cases hp : port = 0
        · simp [hp]
        · simp only [ne_eq, hp, not_false_eq_true, if_true]
          rw [if_pos (natDec_ne_nil (by omega : 1 ≤ port)),
            strtoul0_natDec (by omega) (by omega)]
          have hmod := Nat.mod_eq_of_lt hport
          simp [hmod]
          try omega
  | none =>
    cases usr with
    | some x =>
      cases pw with
      | some y =>
        unfold parseAuth authText
        simp only [List.append_assoc, List.singleton_append, List.cons_append,
          List.nil_append, Option.isSome_some, true_or, if_true]
        rw [splitFirst_append_left (esc_no_semi x),
          splitFirst_cons_ne (by decide : ':' ≠ ';'),
          splitFirst_append_left (esc_no_semi y),
          splitFirst_cons_ne (by decide : '@' ≠ ';'),
          splitFirst_not_mem hsemiR]
        try dsimp only
        simp only [Option.map_none']
        rw [splitFirst_append_left (esc_no_at x),
          splitFirst_cons_ne (by decide : ':' ≠ '@'),
          splitFirst_append (esc_no_at y)]
        try dsimp only
        simp only [Option.map_some']
        rw [splitFirst_append (esc_no_colon x)]
        try dsimp only
        rw [hspv]
        try dsimp only
        by_cases hp : port = 0
        · simp [hp]
        · simp only [ne_eq, hp, not_false_eq_true, if_true]
          rw [if_pos (natDec_ne_nil (by omega : 1 ≤ port)),
            strtoul0_natDec (by omega) (by omega)]
          have hmod := Nat.mod_eq_of_lt hport
          simp [hmod]
          try omega
      | none =>
        unfold parseAuth authText
        simp only [List.append_assoc, List.singleton_append, List.cons_append,
          List.nil_append, Option.isSome_some, Option.isSome_none, true_or, if_true]
        rw [splitFirst_append_left (esc_no_semi x),
          splitFirst_cons_ne (by decide : '@' ≠ ';'),
          splitFirst_not_mem hsemiR]
        try dsimp only
        simp only [Option.map_none']
        rw [splitFirst_append (esc_no_at x)]
        try dsimp only
        rw [splitFirst_not_mem (esc_no_colon x)]
        try dsimp only
        rw [hspv]
        try dsimp only
        by_cases hp : port = 0
        · simp [hp]
        · simp only [ne_eq, hp, not_false_eq_true, if_true]
          rw [if_pos (natDec_ne_nil (by omega : 1 ≤ port)),
            strtoul0_natDec (by omega) (by omega)]
          have hmod := Nat.mod_eq_of_lt hport
          simp [hmod]
          try omega
    | none =>
      cases pw with
      | some y => exact absurd (hpwu (by simp)) (by simp)
      | none =>
        unfold parseAuth authText
        simp only [List.append_assoc, List.singleton_append, List.cons_append,
          List.nil_append, Option.isSome_none, Bool.false_eq_true, false_or,
          or_false, or_self, if_false]
        rw [splitFirst_not_mem hsemiR]
        try dsimp only
        rw [splitFirst_not_mem hatR]
        try dsimp only
        rw [hspv]
        try dsimp only
        by_cases hp : port = 0
        · simp [hp]
        · simp only [ne_eq, hp, not_false_eq_true, if_true]
          rw [if_pos (natDec_ne_nil (by omega : 1 ≤ port)),
            strtoul0_natDec (by omega) (by omega)]
          have hmod := Nat.mod_eq_of_lt hport
          simp [hmod]
          try omega
theorem authText_no_sep {dom usr pw : Option (List Char)} {v : List Char} {port : Nat}
    (hdomc : ∀ d, dom = some d → '/' ∉ d ∧ '?' ∉ d)
    (hv : '/' ∉ v ∧ '?' ∉ v) :
    ∀ c ∈ authText dom usr pw v port, ¬(c = '/' ∨ c = '?') := by
  intro c hc
  unfold authText at hc
  rw [not_or]
  rcases List.mem_append.1 hc with hm | hm
  · rcases List.mem_append.1 hm with hm | hm
    · rcases List.mem_append.1 hm with hm | hm
      · rcases List.mem_append.1 hm with hm | hm
        · rcases List.mem_append.1 hm with hm | hm
          · cases dom with
            | none => simp at hm
            | some d =>
              rcases List.mem_append.1 hm with hm | hm
              · exact ⟨fun he => (hdomc d rfl).1 (he ▸ hm),
                  fun he => (hdomc d rfl).2 (he ▸ hm)⟩
              · rcases List.mem_singleton.1 hm with rfl
                exact ⟨by decide, by decide⟩
          · cases usr with
            | none => simp at hm
            | some x =>
              have := escSafe_ne (mem_curlEscape hm)
              exact ⟨this.1, this.2.1⟩
        · cases pw with
          | none => simp at hm
          | some y =>
            rcases List.mem_cons.1 hm with rfl | hm
            · exact ⟨by decide, by decide⟩
            · have := escSafe_ne (mem_curlEscape hm)
              exact ⟨this.1, this.2.1⟩
      · by_cases hcond : usr.isSome ∨ pw.isSome
        · rw [if_pos hcond] at hm
          rcases List.mem_singleton.1 hm with rfl
          exact ⟨by decide, by decide⟩
        · rw [if_neg hcond] at hm
          simp at hm
    · exact ⟨fun he => hv.1 (he ▸ hm), fun he => hv.2 (he ▸ hm)⟩
  · by_cases hp : port = 0
    · simp [hp] at hm
    · simp only [ne_eq, hp, not_false_eq_true, if_true] at hm
      rcases List.mem_cons.1 hm with rfl | hm
      · exact ⟨by decide, by decide⟩
      · obtain ⟨h1, h2⟩ := natDec_digits hm
        obtain ⟨ha, hb, _, _, _⟩ := digit_ne h1 h2
        exact ⟨ha, hb⟩

theorem authText_ne_nil {dom usr pw : Option (List Char)} {v : List Char} {port : Nat}
    (hvne : v ≠ []) : authText dom usr pw v port ≠ [] := by
  intro h
  unfold authText at h
  simp [List.append_eq_nil] at h
  exact hvne h.2.2.2.2.1
theorem printAuth_some {u : Url} {v : List Char} (hv : u.server = some v) :
    printAuth u = schemeName u.scheme ++ ':' :: '/' :: '/' ::
      authText u.domain u.user u.password v u.port := by
  unfold printAuth
  rw [hv]
  simp [List.append_assoc]

theorem printAuth_none {u : Url} (hv : u.server = Option.none)
    (hd : u.domain = Option.none) (hu : u.user = Option.none)
    (hp : u.password = Option.none) (hport : u.port = 0) :
    printAuth u = schemeName u.scheme ++ [':'] := by
  unfold printAuth
  rw [hv, hd, hu, hp, hport]
  simp

/-- The authority-block case of url_set's splitting stage (url.c:361-388):
scheme prefix, `//`, an authority span free of '/' and '?', then the
tail. -/
theorem urlSplit_auth {sch : Scheme} (hs : sch ≠ Scheme.none) {A : List Char}
    (T : List Char)
    (hA : ∀ c ∈ A, ¬(c = '/' ∨ c = '?')) (hAne : A ≠ [])
    (hT : ∀ c, T.head? = some c → c = '/' ∨ c = '?') :
    urlSplit (schemeName sch ++ ':' :: '/' :: '/' :: (A ++ T)) =
      ((match splitFirst '?' T with
        | some (a, b) =>
          { emptyUrl with scheme := sch, query := parseQuery b,
                          path := some (if a.head? = some '/' then a.drop 1 else a) }
        | Option.none =>
          { emptyUrl with scheme := sch, query := [],
                          path := some (if T.head? = some '/' then T.drop 1 else T) }),
       some A) := by
  unfold urlSplit
  rw [splitFirst_append (schemeName_colon sch)]
  dsimp only
  rw [fileSym2num_schemeName hs]
  dsimp only
  rw [if_pos (show ('/' :: '/' :: (A ++ T)).take 2 = cs "//" from rfl)]
  have htw := @takeWhile_append_all (fun c => ¬(c = '/' ∨ c = '?')) A T
    (fun x hx => by simpa using hA x hx)
    (fun c hcT => by
      rw [decide_eq_false_iff_not]
      exact not_not_intro (hT c hcT))
  rw [show List.drop 2 ('/' :: '/' :: (A ++ T)) = A ++ T from rfl]
  rw [htw]
  rw [if_pos (show A.length ≠ 0 from fun h => hAne (List.length_eq_zero.1 h))]
  rw [List.take_left, List.drop_left]
  cases hq : splitFirst '?' T with
  | none => rfl
  | some pr => rfl
theorem urlSplit_noauth {sch : Scheme} (hs : sch ≠ Scheme.none) (T : List Char)
    (hT2 : T.take 2 ≠ cs "//") :
    urlSplit (schemeName sch ++ ':' :: T) =
      ((match splitFirst '?' T with
        | some (a, b) =>
          { emptyUrl with scheme := sch, query := parseQuery b,
                          path := some (if a.head? = some '/' then a.drop 1 else a) }
        | Option.none =>
          { emptyUrl with scheme := sch, query := [],
                          path := some (if T.head? = some '/' then T.drop 1 else T) }),
       Option.none) := by
  unfold urlSplit
  rw [splitFirst_append (schemeName_colon sch)]
  dsimp only
  rw [fileSym2num_schemeName hs]
  dsimp only
  rw [if_neg hT2]
  cases hq : splitFirst '?' T with
  | none => rfl
  | some pr => rfl
theorem post_stages (V : Url) :
    (forceSlash (setFlags (queryInstsys (queryDevice V)))).scheme = V.scheme ∧
    (forceSlash (setFlags (queryInstsys (queryDevice V)))).server = V.server ∧
    (forceSlash (setFlags (queryInstsys (queryDevice V)))).port = V.port ∧
    (forceSlash (setFlags (queryInstsys (queryDevice V)))).share = V.share ∧
    (forceSlash (setFlags (queryInstsys (queryDevice V)))).user = V.user ∧
    (forceSlash (setFlags (queryInstsys (queryDevice V)))).password = V.password ∧
    (forceSlash (setFlags (queryInstsys (queryDevice V)))).domain = V.domain ∧
    (forceSlash (setFlags (queryInstsys (queryDevice V)))).path =
      (if V.scheme ∈ mountableSchemes then
         match V.path with
         | some q => if q.head? = some '/' then some q else some ('/' :: q)
         | Option.none => some ['/']
       else V.path) := by
  obtain ⟨d', hd'⟩ := queryDevice_shape V
  obtain ⟨i', hi'⟩ := queryInstsys_shape { V with device := d' }
  rw [hd', hi']
  unfold setFlags forceSlash
  dsimp only
  by_cases hm : V.scheme ∈ mountableSchemes
  · cases hvp : V.path with
    | none => simp [hm, hvp]
    | some q =>
      by_cases hq : q.head? = some '/'
      · simp [hm, hvp, hq]
      · simp [hm, hvp, hq]
  · simp [hm]
theorem c1_pipe (u : Url) (p : List Char) (Q : List QEntry) (R : Url)
    (hp : u.path = some p)
    (hdomp : ∀ d, u.domain = some d → '%' ∉ d)
    (husr : ∀ x, u.user = some x → ∀ c ∈ x, c.toNat < 256)
    (hpwd : ∀ x, u.password = some x → ∀ c ∈ x, c.toNat < 256)
    (hsrvp : ∀ v, u.server = some v → '%' ∉ v)
    (hshare : ∀ sh, u.share = some sh → '/' ∉ sh ∧ '%' ∉ sh)
    (hsharesmb : u.share.isSome → u.scheme = Scheme.smb)
    (hsmbsh : u.scheme = Scheme.smb → u.share.isSome)
    (hpp : '%' ∉ p)
    (hmnt : u.scheme ∈ mountableSchemes →
      p.head? = some '/' ∧ p.tail.head? ≠ some '/')
    (hnm : u.scheme ∉ mountableSchemes → u.scheme ≠ Scheme.ftp →
      p.head? ≠ some '/')
    (hR : R = forceSlash (setFlags (queryInstsys (queryDevice
        (devProbe statNone (unescapeFields (smbSplit
          { emptyUrl with
            scheme := u.scheme, query := Q,
            path := some
              (if (shareText u ++ pathText u).head? = some '/' then
                (shareText u ++ pathText u).drop 1
              else shareText u ++ pathText u),
            domain := u.domain, user := u.user.map curlEscape,
            password := u.password.map curlEscape, server := u.server,
            port := u.port })))))) ) :
    R.scheme = u.scheme ∧ R.server = u.server ∧ R.port = u.port ∧
    R.share = u.share ∧ R.path = u.path ∧ R.user = u.user ∧
    R.password = u.password ∧ R.domain = u.domain := by
  have huserm : (u.user.map curlEscape).map curlUnescape = u.user := by
    cases hux : u.user with
    | none => rfl
    | some x => simp [curlUnescape_curlEscape (husr x hux)]
  have hpassm : (u.password.map curlEscape).map curlUnescape = u.password := by
    cases hx : u.password with
    | none => rfl
    | some x => simp [curlUnescape_curlEscape (hpwd x hx)]
  have hdomm : u.domain.map curlUnescape = u.domain := by
    cases hx : u.domain with
    | none => rfl
    | some d => simp [curlUnescape_id (hdomp d hx)]
  have hsrvm : u.server.map curlUnescape = u.server := by
    cases hx : u.server with
    | none => rfl
    | some w => simp [curlUnescape_id (hsrvp w hx)]
  cases hshv : u.share with
  | some sh =>
    obtain ⟨hshsl, hshp⟩ := hshare sh hshv
    have hsm : u.scheme = Scheme.smb := hsharesmb (by rw [hshv]; rfl)
    have hm : u.scheme ∈ mountableSchemes := by rw [hsm]; decide
    obtain ⟨hph, hpt⟩ := hmnt hm
    have hpc : p = '/' :: p.tail := by
      cases p with
      | nil => simp at hph
      | cons c t =>
        simp at hph
        subst hph
        rfl
    have hptp : '%' ∉ p.tail := by
      intro hmm
      exact hpp (by rw [hpc]; exact List.mem_cons_of_mem _ hmm)
    have hsT : shareText u = '/' :: sh := by simp [shareText, hshv]
    have hpT : pathText u = '/' :: p.tail := by
      unfold pathText
      rw [hp]
      dsimp only
      rw [if_pos (Or.inl (show u.scheme ≠ Scheme.slp by rw [hsm]; decide))]
      rw [if_neg (show ¬(u.scheme = Scheme.ftp ∧ p.head? = some '/') by
        rw [hsm]; simp)]
      rw [if_pos hph]
      simp [List.drop_one]
    rw [hsT, hpT] at hR
    rw [show ('/' :: sh) ++ '/' :: p.tail = '/' :: (sh ++ '/' :: p.tail) from by simp] at hR
    rw [if_pos (show ('/' :: (sh ++ '/' :: p.tail)).head? = some '/' from rfl)] at hR
    simp only [List.drop_succ_cons, List.drop_zero] at hR
    unfold smbSplit at hR
    dsimp only at hR
    rw [if_pos hsm] at hR
    rw [splitFirst_append hshsl] at hR
    dsimp only at hR
    unfold unescapeFields at hR
    dsimp only at hR
    rw [hsrvm, huserm, hpassm, hdomm] at hR
    rw [show (some (sh : List Char)).map curlUnescape = some sh from by
      simp [curlUnescape_id hshp]] at hR
    rw [show (some (p.tail)).map curlUnescape = some p.tail from by
      simp [curlUnescape_id hptp]] at hR
    rw [devProbe_statNone] at hR
    obtain ⟨e1, e2, e3, e4, e5, e6, e7, e8⟩ := post_stages { emptyUrl with
      scheme := u.scheme, server := u.server, port := u.port, share := some sh,
      path := some p.tail, user := u.user, password := u.password,
      domain := u.domain, query := Q }
    dsimp only at e1 e2 e3 e4 e5 e6 e7 e8
    subst hR
    refine ⟨e1, e2, e3, e4, e8.trans ?_, e5, e6, e7⟩
    rw [if_pos hm]
    rw [if_neg hpt, hp]
    exact congrArg some hpc.symm
  | none =>
    have hsT : shareText u = [] := by simp [shareText, hshv]
    have hnsmb : u.scheme ≠ Scheme.smb := by
      intro he
      have := hsmbsh he
      rw [hshv] at this
      simp at this
    by_cases hm : u.scheme ∈ mountableSchemes
    · -- mountable, no share
      have hnslp : u.scheme ≠ Scheme.slp := fun he => absurd hm (by rw [he]; decide)
      obtain ⟨hph, hpt⟩ := hmnt hm
      have hpc : p = '/' :: p.tail := by
        cases p with
        | nil => simp at hph
        | cons c t =>
          simp at hph
          subst hph
          rfl
      have hptp : '%' ∉ p.tail := by
        intro hmm
        exact hpp (by rw [hpc]; exact List.mem_cons_of_mem _ hmm)
      have hpT : pathText u = '/' :: p.tail := by
        unfold pathText
        rw [hp]
        dsimp only
        rw [if_pos (Or.inl hnslp)]
        rw [if_neg (show ¬(u.scheme = Scheme.ftp ∧ p.head? = some '/') from
          fun hand => mountable_ne_ftp hm hand.1)]
        rw [if_pos hph]
        simp [List.drop_one]
      rw [hsT, hpT, List.nil_append] at hR
      rw [if_pos (show ('/' :: p.tail).head? = some '/' from rfl)] at hR
      simp only [List.drop_succ_cons, List.drop_zero] at hR
      unfold smbSplit at hR
      dsimp only at hR
      rw [if_neg hnsmb] at hR
      unfold unescapeFields at hR
      dsimp only at hR
      rw [hsrvm, huserm, hpassm, hdomm] at hR
      rw [show Option.map curlUnescape emptyUrl.share = Option.none from rfl] at hR
      rw [show (some (p.tail)).map curlUnescape = some p.tail from by
        simp [curlUnescape_id hptp]] at hR
      rw [devProbe_statNone] at hR
      obtain ⟨e1, e2, e3, e4, e5, e6, e7, e8⟩ := post_stages { emptyUrl with
        scheme := u.scheme, server := u.server, port := u.port,
        share := Option.none, path := some p.tail, user := u.user,
        password := u.password, domain := u.domain, query := Q }
      dsimp only at e1 e2 e3 e4 e5 e6 e7 e8
      subst hR
      refine ⟨e1, e2, e3, e4, e8.trans ?_, e5, e6, e7⟩
      rw [if_pos hm]
      rw [if_neg hpt, hp]
      exact congrArg some hpc.symm
    · by_cases hse : u.scheme = Scheme.slp ∧ p = []
      · -- slp with empty path: nothing printed
        have hpT : pathText u = [] := by
          unfold pathText
          rw [hp]
          dsimp only
          rw [if_neg (show ¬(u.scheme ≠ Scheme.slp ∨ p ≠ []) from by
            rw [hse.1, hse.2]; simp)]
        rw [hsT, hpT, List.nil_append] at hR
        rw [if_neg (show ¬(([] : List Char).head? = some '/') from by simp)] at hR
        unfold smbSplit at hR
        dsimp only at hR
        rw [if_neg hnsmb] at hR
        unfold unescapeFields at hR
        dsimp only at hR
        rw [hsrvm, huserm, hpassm, hdomm] at hR
        rw [show Option.map curlUnescape emptyUrl.share = Option.none from rfl] at hR
        rw [show (some ([] : List Char)).map curlUnescape = some [] from rfl] at hR
        rw [devProbe_statNone] at hR
        obtain ⟨e1, e2, e3, e4, e5, e6, e7, e8⟩ := post_stages { emptyUrl with
          scheme := u.scheme, server := u.server, port := u.port,
          share := Option.none, path := some [], user := u.user,
          password := u.password, domain := u.domain, query := Q }
        dsimp only at e1 e2 e3 e4 e5 e6 e7 e8
        subst hR
        refine ⟨e1, e2, e3, e4, e8.trans ?_, e5, e6, e7⟩
        rw [if_neg hm, hp, hse.2]
      · by_cases hftp : u.scheme = Scheme.ftp ∧ p.head? = some '/'
        · -- ftp with absolute path: the %2F marker
          have hpc : p = '/' :: p.tail := by
            cases p with
            | nil => simp at hftp
            | cons c t =>
              obtain ⟨-, hph⟩ := hftp
              simp at hph
              subst hph
              rfl
          have hptp : '%' ∉ p.drop 1 := by
            intro hmm
            exact hpp (List.mem_of_mem_drop hmm)
          have hpT : pathText u = '/' :: '%' :: '2' :: 'F' :: p.drop 1 := by
            unfold pathText
            rw [hp]
            dsimp only
            rw [if_pos (Or.inl (show u.scheme ≠ Scheme.slp from by
              rw [hftp.1]; decide))]
            rw [if_pos hftp, if_pos hftp.2]
            simp [cs]
          rw [hsT, hpT, List.nil_append] at hR
          rw [if_pos (show ('/' :: '%' :: '2' :: 'F' :: p.drop 1).head? = some '/'
            from rfl)] at hR
          simp only [List.drop_succ_cons, List.drop_zero] at hR
          unfold smbSplit at hR
          dsimp only at hR
          rw [if_neg hnsmb] at hR
          unfold unescapeFields at hR
          dsimp only at hR
          rw [hsrvm, huserm, hpassm, hdomm] at hR
          rw [show Option.map curlUnescape emptyUrl.share = Option.none from rfl] at hR
          rw [show (some ('%' :: '2' :: 'F' :: p.drop 1)).map curlUnescape =
              some ('/' :: p.drop 1) from by
            rw [show (some ('%' :: '2' :: 'F' :: p.drop 1)).map curlUnescape =
                some (curlUnescape ('%' :: '2' :: 'F' :: p.drop 1)) from rfl]
            rw [curlUnescape_2F, curlUnescape_id hptp]] at hR
          rw [devProbe_statNone] at hR
          obtain ⟨e1, e2, e3, e4, e5, e6, e7, e8⟩ := post_stages { emptyUrl with
            scheme := u.scheme, server := u.server, port := u.port,
            share := Option.none, path := some ('/' :: p.drop 1), user := u.user,
            password := u.password, domain := u.domain, query := Q }
          dsimp only at e1 e2 e3 e4 e5 e6 e7 e8
          subst hR
          refine ⟨e1, e2, e3, e4, e8.trans ?_, e5, e6, e7⟩
          rw [if_neg hm, hp]
          refine congrArg some ?_
          rw [List.drop_one]
          exact hpc.symm
        · -- plain relative path
          have hph : p.head? ≠ some '/' := by
            by_cases hft : u.scheme = Scheme.ftp
            · intro hh
              exact hftp ⟨hft, hh⟩
            · exact hnm hm hft
          have hcond : u.scheme ≠ Scheme.slp ∨ p ≠ [] := not_and_or.1 hse
          have hpT : pathText u = '/' :: p := by
            unfold pathText
            rw [hp]
            dsimp only
            rw [if_pos hcond]
            rw [if_neg hftp, if_neg hph]
            simp
          rw [hsT, hpT, List.nil_append] at hR
          rw [if_pos (show ('/' :: p).head? = some '/' from rfl)] at hR
          simp only [List.drop_succ_cons, List.drop_zero] at hR
          unfold smbSplit at hR
          dsimp only at hR
          rw [if_neg hnsmb] at hR
          unfold unescapeFields at hR
          dsimp only at hR
          rw [hsrvm, huserm, hpassm, hdomm] at hR
          rw [show Option.map curlUnescape emptyUrl.share = Option.none from rfl] at hR
          rw [show (some p).map curlUnescape = some p from by
            simp [curlUnescape_id hpp]] at hR
          rw [devProbe_statNone] at hR
          obtain ⟨e1, e2, e3, e4, e5, e6, e7, e8⟩ := post_stages { emptyUrl with
            scheme := u.scheme, server := u.server, port := u.port,
            share := Option.none, path := some p, user := u.user,
            password := u.password, domain := u.domain, query := Q }
          dsimp only at e1 e2 e3 e4 e5 e6 e7 e8
          subst hR
          refine ⟨e1, e2, e3, e4, e8.trans ?_, e5, e6, e7⟩
          rw [if_neg hm, hp]
/-- Claim C1 (amended): for a parsed url whose printable fields are
clean -- scheme known; path present; domain, server and share free of
the separator and escape characters they would be re-split or decoded
on; credentials made of bytes; a server present and non-empty whenever
any other authority field is; port below 2^32; share only for smb and
smb carrying share and server; a mountable path starting with exactly
one '/', a non-mountable non-ftp path starting with none -- re-parsing
the full (format 2) serialization restores scheme, server, port, share,
path, user, password and domain exactly.  The re-parse probes with the
empty stat oracle, so no device split is re-applied. -/
theorem c1_roundtrip (u : Url) (p : List Char)
    (h0 : u.scheme ≠ Scheme.none)
    (hp : u.path = some p)
    (hdom : ∀ d, u.domain = some d → ';' ∉ d ∧ '/' ∉ d ∧ '?' ∉ d ∧ '%' ∉ d)
    (husr : ∀ x, u.user = some x → ∀ c ∈ x, c.toNat < 256)
    (hpwd : ∀ x, u.password = some x → ∀ c ∈ x, c.toNat < 256)
    (hpwu : u.password.isSome → u.user.isSome)
    (hsrv : ∀ v, u.server = some v →
      v ≠ [] ∧ ';' ∉ v ∧ '@' ∉ v ∧ ':' ∉ v ∧ '/' ∉ v ∧ '?' ∉ v ∧ '%' ∉ v)
    (hsrvreq : u.server = Option.none →
      u.domain = Option.none ∧ u.user = Option.none ∧
      u.password = Option.none ∧ u.port = 0)
    (hport : u.port < 2 ^ 32)
    (hshare : ∀ sh, u.share = some sh → '/' ∉ sh ∧ '?' ∉ sh ∧ '%' ∉ sh)
    (hsharesmb : u.share.isSome → u.scheme = Scheme.smb)
    (hsmb : u.scheme = Scheme.smb → u.share.isSome ∧ u.server.isSome)
    (hpq : '?' ∉ p) (hpp : '%' ∉ p)
    (hmnt : u.scheme ∈ mountableSchemes →
      p.head? = some '/' ∧ p.tail.head? ≠ some '/')
    (hnm : u.scheme ∉ mountableSchemes → u.scheme ≠ Scheme.ftp →
      p.head? ≠ some '/') :
    (urlSet statNone (some (urlPrint u 2))).scheme = u.scheme ∧
    (urlSet statNone (some (urlPrint u 2))).server = u.server ∧
    (urlSet statNone (some (urlPrint u 2))).port = u.port ∧
    (urlSet statNone (some (urlPrint u 2))).share = u.share ∧
    (urlSet statNone (some (urlPrint u 2))).path = u.path ∧
    (urlSet statNone (some (urlPrint u 2))).user = u.user ∧
    (urlSet statNone (some (urlPrint u 2))).password = u.password ∧
    (urlSet statNone (some (urlPrint u 2))).domain = u.domain := by
  have hsthead : ∀ c, (shareText u ++ pathText u).head? = some c → c = '/' := by
    intro c hc
    cases hshv : u.share with
    | some sh =>
      rw [show shareText u = '/' :: sh from by simp [shareText, hshv],
        List.cons_append] at hc
      simp at hc
      exact hc.symm
    | none =>
      rw [show shareText u = [] from by simp [shareText, hshv],
        List.nil_append] at hc
      unfold pathText at hc
      rw [hp] at hc
      dsimp only at hc
      split_ifs at hc <;> first
        | (simp at hc; exact hc.symm)
        | simp at hc
  have hdevhead : ∀ c, (devText u).head? = some c → c = '?' := by
    intro c hc
    unfold devText at hc
    cases hud : u.usedDevice with
    | some d =>
      rw [hud] at hc
      simpa using hc.symm
    | none =>
      rw [hud] at hc
      cases hdd : u.device with
      | some d =>
        rw [hdd] at hc
        simpa using hc.symm
      | none =>
        rw [hdd] at hc
        simp at hc
  have hThead : ∀ c, (tailText u).head? = some c → c = '/' ∨ c = '?' := by
    intro c hc
    rw [show tailText u = (shareText u ++ pathText u) ++ devText u from rfl] at hc
    cases hst : shareText u ++ pathText u with
    | nil =>
      rw [hst, List.nil_append] at hc
      exact Or.inr (hdevhead c hc)
    | cons a t =>
      rw [hst, List.cons_append] at hc
      simp only [List.head?_cons, Option.some.injEq] at hc
      subst hc
      exact Or.inl (hsthead _ (by rw [hst]; rfl))
  have hqst : '?' ∉ shareText u ++ pathText u := by
    intro hm
    rcases List.mem_append.1 hm with hm | hm
    · unfold shareText at hm
      cases hshv : u.share with
      | some sh =>
        rw [hshv] at hm
        rcases List.mem_cons.1 hm with he | hm
        · exact absurd he (by decide)
        · exact (hshare sh hshv).2.1 hm
      | none => rw [hshv] at hm; simp at hm
    · unfold pathText at hm
      rw [hp] at hm
      dsimp only at hm
      split_ifs at hm with h1 h2 h3
      · rcases List.mem_cons.1 hm with he | hm
        · exact absurd he (by decide)
        rcases List.mem_append.1 hm with hm | hm
        · simp [cs] at hm
        · exact hpq (List.mem_of_mem_drop hm)
      · rcases List.mem_cons.1 hm with he | hm
        · exact absurd he (by decide)
        rcases List.mem_append.1 hm with hm | hm
        · simp [cs] at hm
        · exact hpq hm
      · rcases List.mem_cons.1 hm with he | hm
        · exact absurd he (by decide)
        rcases List.mem_append.1 hm with hm | hm
        · simp at hm
        · exact hpq (List.mem_of_mem_drop hm)
      · rcases List.mem_cons.1 hm with he | hm
        · exact absurd he (by decide)
        rcases List.mem_append.1 hm with hm | hm
        · simp at hm
        · exact hpq hm
      · simp at hm
  have hdev : devText u = [] ∨ ∃ dq, devText u = '?' :: dq := by
    unfold devText
    cases u.usedDevice with
    | some d => exact Or.inr ⟨_, rfl⟩
    | none =>
      cases u.device with
      | some d => exact Or.inr ⟨_, rfl⟩
      | none => exact Or.inl rfl
  cases hsv : u.server with
  | some v =>
    obtain ⟨hv1, hv2, hv3, hv4, hv5, hv6, hv7⟩ := hsrv v hsv
    have houtA : urlPrint u 2 = schemeName u.scheme ++ ':' :: '/' :: '/' ::
        (authText u.domain u.user u.password v u.port ++ tailText u) := by
      rw [urlPrint_split, printAuth_some hsv]
      simp [List.append_assoc]
    have hsp := urlSplit_auth (A := authText u.domain u.user u.password v u.port)
      h0 (tailText u)
      (authText_no_sep (fun d hd => ⟨(hdom d hd).2.1, (hdom d hd).2.2.1⟩)
        ⟨hv5, hv6⟩)
      (authText_ne_nil hv1) hThead
    rcases hdev with hdv | ⟨dq, hdv⟩
    · have hTTe : tailText u = shareText u ++ pathText u := by
        rw [show tailText u = (shareText u ++ pathText u) ++ devText u from rfl,
          hdv, List.append_nil]
      rw [hTTe, splitFirst_not_mem hqst] at hsp
      rw [houtA, hTTe]
      unfold urlSet
      dsimp only
      rw [hsp]
      dsimp only
      rw [parseAuth_print _ u.domain u.user u.password v u.port
        (fun d hd => (hdom d hd).1) hv2 hv3 hv4 hpwu hport]
      rw [← hsv]
      exact c1_pipe u p [] _ hp (fun d hd => (hdom d hd).2.2.2) husr hpwd
        (fun w hw => (hsrv w hw).2.2.2.2.2.2) 
        (fun sh hs => ⟨(hshare sh hs).1, (hshare sh hs).2.2⟩) hsharesmb
        (fun he => (hsmb he).1) hpp hmnt hnm rfl
    · have hTTe : tailText u = (shareText u ++ pathText u) ++ '?' :: dq := by
        rw [show tailText u = (shareText u ++ pathText u) ++ devText u from rfl,
          hdv]
      rw [hTTe, splitFirst_append hqst] at hsp
      rw [houtA, hTTe]
      unfold urlSet
      dsimp only
      rw [hsp]
      dsimp only
      rw [parseAuth_print _ u.domain u.user u.password v u.port
        (fun d hd => (hdom d hd).1) hv2 hv3 hv4 hpwu hport]
      rw [← hsv]
      exact c1_pipe u p (parseQuery dq) _ hp (fun d hd => (hdom d hd).2.2.2)
        husr hpwd (fun w hw => (hsrv w hw).2.2.2.2.2.2)
        (fun sh hs => ⟨(hshare sh hs).1, (hshare sh hs).2.2⟩) hsharesmb
        (fun he => (hsmb he).1) hpp hmnt hnm rfl
  | none =>
    obtain ⟨hdn, hun, hpn, hp0⟩ := hsrvreq hsv
    have hshn : u.share = Option.none := by
      cases hshv : u.share with
      | none => rfl
      | some sh =>
        have hsm := hsharesmb (by rw [hshv]; rfl)
        have := (hsmb hsm).2
        rw [hsv] at this
        simp at this
    have hsTn : shareText u = [] := by simp [shareText, hshn]
    have hbody : pathText u = [] ∨
        ∃ b, pathText u = '/' :: b ∧ b.head? ≠ some '/' := by
      unfold pathText
      rw [hp]
      dsimp only
      by_cases h1 : u.scheme ≠ Scheme.slp ∨ p ≠ []
      · rw [if_pos h1]
        by_cases h2 : u.scheme = Scheme.ftp ∧ p.head? = some '/'
        · rw [if_pos h2, if_pos h2.2]
          exact Or.inr ⟨_, rfl, by simp [cs]⟩
        · rw [if_neg h2]
          by_cases h3 : p.head? = some '/'
          · rw [if_pos h3]
            by_cases hm : u.scheme ∈ mountableSchemes
            · refine Or.inr ⟨p.tail, by simp [List.drop_one], (hmnt hm).2⟩
            · have hft : u.scheme ≠ Scheme.ftp := fun he => h2 ⟨he, h3⟩
              exact absurd h3 (hnm hm hft)
          · rw [if_neg h3]
            exact Or.inr ⟨_, by simp, h3⟩
      · rw [if_neg h1]
        exact Or.inl rfl
    have hT2 : (tailText u).take 2 ≠ cs "//" := by
      rw [show tailText u = (shareText u ++ pathText u) ++ devText u from rfl,
        hsTn, List.nil_append]
      rcases hbody with hb | ⟨b, hb, hbh⟩
      · rw [hb, List.nil_append]
        rcases hdev with hdv | ⟨dq, hdv⟩
        · rw [hdv]; decide
        · rw [hdv]
          intro h
          have hh := congrArg List.head? h
          simp [cs] at hh
      · rw [hb, List.cons_append]
        intro h
        rw [show cs "//" = ['/', '/'] from rfl] at h
        simp only [List.take_succ_cons, List.cons.injEq] at h
        have h1t := h.2
        cases hbc : b with
        | nil =>
          rw [hbc, List.nil_append] at h1t
          rcases hdev with hdv | ⟨dq, hdv⟩
          · rw [hdv] at h1t
            simp at h1t
          · rw [hdv] at h1t
            simp at h1t
        | cons x xs =>
          rw [hbc, List.cons_append] at h1t
          simp at h1t
          rw [hbc, h1t] at hbh
          simp at hbh
    have houtB : urlPrint u 2 = schemeName u.scheme ++ ':' :: tailText u := by
      rw [urlPrint_split, printAuth_none hsv hdn hun hpn hp0]
      simp [List.append_assoc]
    have hsp := urlSplit_noauth h0 (tailText u) hT2
    rcases hdev with hdv | ⟨dq, hdv⟩
    · have hTTe : tailText u = shareText u ++ pathText u := by
        rw [show tailText u = (shareText u ++ pathText u) ++ devText u from rfl,
          hdv, List.append_nil]
      rw [hTTe, splitFirst_not_mem hqst] at hsp
      rw [houtB, hTTe]
      unfold urlSet
      dsimp only
      rw [hsp]
      dsimp only
      have hW : ({ emptyUrl with
                   scheme := u.scheme, query := ([] : List QEntry),
                   path := some (if (shareText u ++ pathText u).head? = some '/' then
                     (shareText u ++ pathText u).drop 1 else shareText u ++ pathText u) } : Url) =
          { emptyUrl with
            scheme := u.scheme, query := ([] : List QEntry),
            path := some (if (shareText u ++ pathText u).head? = some '/' then
              (shareText u ++ pathText u).drop 1 else shareText u ++ pathText u),
            domain := u.domain, user := u.user.map curlEscape,
            password := u.password.map curlEscape, server := u.server,
            port := u.port } := by
        rw [hdn, hun, hpn, hp0, hsv]
        rfl
      rw [hW]
      have hpipe := c1_pipe u p [] _ hp (fun d hd => (hdom d hd).2.2.2) husr hpwd
        (fun w hw => (hsrv w hw).2.2.2.2.2.2)
        (fun sh hs => ⟨(hshare sh hs).1, (hshare sh hs).2.2⟩) hsharesmb
        (fun he => (hsmb he).1) hpp hmnt hnm rfl
      exact ⟨hpipe.1, hpipe.2.1.trans hsv, hpipe.2.2.1, hpipe.2.2.2.1,
        hpipe.2.2.2.2.1, hpipe.2.2.2.2.2.1, hpipe.2.2.2.2.2.2.1,
        hpipe.2.2.2.2.2.2.2⟩
    · have hTTe : tailText u = (shareText u ++ pathText u) ++ '?' :: dq := by
        rw [show tailText u = (shareText u ++ pathText u) ++ devText u from rfl,
          hdv]
      rw [hTTe, splitFirst_append hqst] at hsp
      rw [houtB, hTTe]
      unfold urlSet
      dsimp only
      rw [hsp]
      dsimp only
      have hW : ({ emptyUrl with
                   scheme := u.scheme, query := parseQuery dq,
                   path := some (if (shareText u ++ pathText u).head? = some '/' then
                     (shareText u ++ pathText u).drop 1 else shareText u ++ pathText u) } : Url) =
          { emptyUrl with
            scheme := u.scheme, query := parseQuery dq,
            path := some (if (shareText u ++ pathText u).head? = some '/' then
              (shareText u ++ pathText u).drop 1 else shareText u ++ pathText u),
            domain := u.domain, user := u.user.map curlEscape,
            password := u.password.map curlEscape, server := u.server,
            port := u.port } := by
        rw [hdn, hun, hpn, hp0, hsv]
        rfl
      rw [hW]
      have hpipe := c1_pipe u p (parseQuery dq) _ hp
        (fun d hd => (hdom d hd).2.2.2)
        husr hpwd (fun w hw => (hsrv w hw).2.2.2.2.2.2)
        (fun sh hs => ⟨(hshare sh hs).1, (hshare sh hs).2.2⟩) hsharesmb
        (fun he => (hsmb he).1) hpp hmnt hnm rfl
      exact ⟨hpipe.1, hpipe.2.1.trans hsv, hpipe.2.2.1, hpipe.2.2.2.1,
        hpipe.2.2.2.2.1, hpipe.2.2.2.2.2.1, hpipe.2.2.2.2.2.2.1,
        hpipe.2.2.2.2.2.2.2⟩

/-- C1 counterexample: the original claim quantifies over every
syntactically valid url string, but a percent-escaped '?' in the path
("http://server/a%3Fb" parses to path "a?b") is serialized RAW by
url_print (url.c:650: the path is not curl-escaped), so the re-parse
splits at the now-literal '?' and the path comes back as "a". -/
theorem c1_escaped_query_counterexample :
    (urlSet statNone (some (cs "http://server/a%3Fb"))).path = some (cs "a?b") ∧
    (urlSet statNone (some (urlPrint
      (urlSet statNone (some (cs "http://server/a%3Fb"))) 2))).path =
      some (cs "a") := by decide

/-- A clean concrete url exercising server, port, credentials, an
absolute ftp path and a device hint. -/
def c1wUrl : Url :=
  { emptyUrl with scheme := Scheme.ftp, server := some (cs "srv"), port := 21,
                  path := some (cs "/a/b"), user := some (cs "me"),
                  password := some (cs "pw"), device := some (cs "sda") }

theorem c1_roundtrip_witness :
    (urlSet statNone (some (urlPrint c1wUrl 2))).scheme = c1wUrl.scheme ∧
    (urlSet statNone (some (urlPrint c1wUrl 2))).server = c1wUrl.server ∧
    (urlSet statNone (some (urlPrint c1wUrl 2))).port = c1wUrl.port ∧
    (urlSet statNone (some (urlPrint c1wUrl 2))).share = c1wUrl.share ∧
    (urlSet statNone (some (urlPrint c1wUrl 2))).path = c1wUrl.path ∧
    (urlSet statNone (some (urlPrint c1wUrl 2))).user = c1wUrl.user ∧
    (urlSet statNone (some (urlPrint c1wUrl 2))).password = c1wUrl.password ∧
    (urlSet statNone (some (urlPrint c1wUrl 2))).domain = c1wUrl.domain :=
  c1_roundtrip c1wUrl (cs "/a/b") (by decide) rfl
    (fun d hd => Option.noConfusion hd)
    (fun x hx => by injection hx with h; subst h; decide)
    (fun x hx => by injection hx with h; subst h; decide)
    (fun _ => rfl)
    (fun v hv => by injection hv with h; subst h; decide)
    (fun h => Option.noConfusion h)
    (by decide)
    (fun sh hs => Option.noConfusion hs)
    (fun h => Bool.noConfusion h)
    (fun h => Scheme.noConfusion h)
    (by decide) (by decide)
    (fun h => absurd h (by decide))
    (fun _ hne => absurd rfl hne)

end LinuxrcUrl
